import Mathlib

/-!
Verification of the Groth16 CRS data model, codec, R1CS assembler and
subversion-audit protocol of `bellman/src/groth16/mod.rs`, against the
repository's specification.

The elliptic-curve engine (fields, groups, pairing, point codecs) is an
external collaborator of the audited code; it is represented by an abstract
`Engine` structure whose fields are exactly the operations the audited code
invokes.  The audited functions themselves are translated statement by
statement from the Rust source.  Rust panics (failed `assert!`,
out-of-bounds indexing) are modelled explicitly by the `PR` result type.
-/

namespace Groth16

/-- Modelled from the spec (§7): the protocol error family.  `circuitSpecific`
stands for the circuit-specific synthesis failures that are bubbled up
unchanged from the supplied circuit. -/
inductive SynthesisError where
  | assignmentMissing : SynthesisError
  | malformedCrs : SynthesisError
  | circuitSpecific : Nat → SynthesisError
deriving DecidableEq, Repr

/-- I/O error kinds observable from the decoders: a truncated stream
(`read_exact` failing) or an explicit `InvalidData` error with its message. -/
inductive IOErr where
  | unexpectedEof : IOErr
  | invalidData : String → IOErr
deriving DecidableEq, Repr

/-- Result of running audited code that may panic (`assert!`, out-of-bounds
indexing), return early with a `SynthesisError`, or succeed. -/
inductive PR (α : Type) where
  | panicked : PR α
  | err : SynthesisError → PR α
  | ok : α → PR α
deriving DecidableEq

def PR.bind {α β : Type} : PR α → (α → PR β) → PR β
  | .panicked, _ => .panicked
  | .err e, _ => .err e
  | .ok a, f => f a

instance : Monad PR where
  pure := PR.ok
  bind := PR.bind

/-- `assert!`/`assert_eq!`: panics when the condition is false. -/
def assertB (b : Bool) : PR Unit :=
  if b then .ok () else .panicked

/-- `if !cond { return Err(SynthesisError::MalformedCrs) }`. -/
def guardCrs (b : Bool) : PR Unit :=
  if b then .ok () else .err .malformedCrs

/-- Rust `xs[i]`: panics when the index is out of bounds. -/
def idx {α : Type} (xs : List α) (i : Nat) : PR α :=
  match xs[i]? with
  | some a => .ok a
  | none => .panicked

/-- The abstract algebraic interface consumed by the audited code: scalar
field `Fr`, source groups `G1`/`G2` (affine and projective representations
are conflated, as `prepare`/`to_affine`/`to_projective`/`batch_normalize`
are representation changes only), target group `Fqk`, Miller loop and final
exponentiation, and the fixed-width point codecs. -/
structure Engine where
  G1 : Type
  G2 : Type
  Fr : Type
  Fqk : Type
  g1Beq : G1 → G1 → Bool
  g2Beq : G2 → G2 → Bool
  fqkBeq : Fqk → Fqk → Bool
  g1Zero : G1
  g2Zero : G2
  g1Add : G1 → G1 → G1
  g2Add : G2 → G2 → G2
  g1Neg : G1 → G1
  g2Neg : G2 → G2
  g1Smul : Fr → G1 → G1
  g2Smul : Fr → G2 → G2
  frZero : Fr
  frOne : Fr
  frAdd : Fr → Fr → Fr
  frMul : Fr → Fr → Fr
  fqkOne : Fqk
  fqkMul : Fqk → Fqk → Fqk
  miller : G1 → G2 → Fqk
  finalExp : Fqk → Fqk
  rootInv : Nat → Fr
  sizeInv : Nat → Fr
  g1CSize : Nat
  g2CSize : Nat
  g1USize : Nat
  g2USize : Nat
  g1ToC : G1 → List Nat
  g2ToC : G2 → List Nat
  g1ToU : G1 → List Nat
  g2ToU : G2 → List Nat
  g1FromC : List Nat → Option G1
  g2FromC : List Nat → Option G2
  g1FromU : List Nat → Option G1
  g2FromU : List Nat → Option G2
  g1FromUU : List Nat → Option G1
  g2FromUU : List Nat → Option G2

/-- `E::miller_loop` over a list of prepared pairs: the product of the
individual Miller-loop values. -/
def millerLoop (E : Engine) (pairs : List (E.G1 × E.G2)) : E.Fqk :=
  pairs.foldl (fun acc pq => E.fqkMul acc (E.miller pq.1 pq.2)) E.fqkOne

/-- `E::pairing(p, q)`: final exponentiation of a one-pair Miller loop
(the engine's final exponentiation is assumed to succeed, as it does on
every Miller-loop output). -/
def Engine.pair (E : Engine) (p : E.G1) (q : E.G2) : E.Fqk :=
  E.finalExp (millerLoop E [(p, q)])

/-- Lawfulness of the external point codec: encoders produce their declared
fixed widths and every decoder inverts the matching encoder. -/
abbrev LawfulCodec (E : Engine) : Prop :=
  (∀ x, (E.g1ToC x).length = E.g1CSize) ∧
  (∀ x, (E.g2ToC x).length = E.g2CSize) ∧
  (∀ x, (E.g1ToU x).length = E.g1USize) ∧
  (∀ x, (E.g2ToU x).length = E.g2USize) ∧
  (∀ x, E.g1FromC (E.g1ToC x) = some x) ∧
  (∀ x, E.g2FromC (E.g2ToC x) = some x) ∧
  (∀ x, E.g1FromU (E.g1ToU x) = some x) ∧
  (∀ x, E.g2FromU (E.g2ToU x) = some x) ∧
  (∀ x, E.g1FromUU (E.g1ToU x) = some x) ∧
  (∀ x, E.g2FromUU (E.g2ToU x) = some x)

/-- The target-group laws used to rewrite a batched final exponentiation of a
Miller-loop product into a product of complete pairings: `1` is a left unit,
final exponentiation is multiplicative and fixes `1`. -/
abbrev PairingLaws (E : Engine) : Prop :=
  (∀ x, E.fqkMul E.fqkOne x = x) ∧
  (∀ x y, E.finalExp (E.fqkMul x y) = E.fqkMul (E.finalExp x) (E.finalExp y)) ∧
  (E.finalExp E.fqkOne = E.fqkOne)

/-- `struct Proof`: three group elements `(a ∈ G1, b ∈ G2, c ∈ G1)`.
The source's `PartialEq` is field-wise, i.e. structural equality. -/
structure Proof (E : Engine) where
  a : E.G1
  b : E.G2
  c : E.G1

/-- `struct VerifyingKey`. -/
structure VerifyingKey (E : Engine) where
  alpha_g1 : E.G1
  beta_g1 : E.G1
  beta_g2 : E.G2
  gamma_g2 : E.G2
  delta_g1 : E.G1
  delta_g2 : E.G2
  ic : List E.G1

/-- `struct Parameters` (the `Arc`s are reference-counted shared vectors whose
`PartialEq` compares contents, so they are plain lists here). -/
structure Parameters (E : Engine) where
  vk : VerifyingKey E
  h : List E.G1
  l : List E.G1
  a : List E.G1
  b_g1 : List E.G1
  b_g2 : List E.G2

/-- `struct ExtendedParameters`: `Parameters` plus the raw powers of tau in
both groups. -/
structure ExtendedParameters (E : Engine) where
  params : Parameters E
  taus_g1 : List E.G1
  taus_g2 : List E.G2

/-- `writer.write_u32::<BigEndian>(n as u32)`: four big-endian bytes of
`n` truncated to 32 bits. -/
def writeU32 (n : Nat) : List Nat :=
  [n / 16777216 % 256, n / 65536 % 256, n / 256 % 256, n % 256]

/-- `reader.read_exact` of an `n`-byte buffer: fails with `UnexpectedEof`
when the stream is shorter than `n`. -/
def readBytesE (n : Nat) (s : List Nat) : Except IOErr (List Nat × List Nat) :=
  if n ≤ s.length then .ok (s.take n, s.drop n) else .error .unexpectedEof

/-- `reader.read_u32::<BigEndian>()`. -/
def readU32 (s : List Nat) : Except IOErr (Nat × List Nat) := do
  let (c, rest) ← readBytesE 4 s
  match c with
  | [b0, b1, b2, b3] => .ok (b0 * 16777216 + b1 * 65536 + b2 * 256 + b3, rest)
  | _ => .error (.invalidData "bad length")

/-- The G1 reader local to `Proof::read`: compressed encoding, subgroup check
always on, and the decoded point must not be the identity. -/
def readG1Cmp (E : Engine) (s : List Nat) : Except IOErr (E.G1 × List Nat) := do
  let (chunk, rest) ← readBytesE E.g1CSize s
  match E.g1FromC chunk with
  | some e =>
    if E.g1Beq e E.g1Zero then .error (.invalidData "point at infinity")
    else .ok (e, rest)
  | none => .error (.invalidData "invalid G1")

/-- The G2 reader local to `Proof::read`. -/
def readG2Cmp (E : Engine) (s : List Nat) : Except IOErr (E.G2 × List Nat) := do
  let (chunk, rest) ← readBytesE E.g2CSize s
  match E.g2FromC chunk with
  | some e =>
    if E.g2Beq e E.g2Zero then .error (.invalidData "point at infinity")
    else .ok (e, rest)
  | none => .error (.invalidData "invalid G2")

/-- The G1 reader local to `VerifyingKey::read`: uncompressed, always
checked, and with NO identity rejection. -/
def readG1Vk (E : Engine) (s : List Nat) : Except IOErr (E.G1 × List Nat) := do
  let (chunk, rest) ← readBytesE E.g1USize s
  match E.g1FromU chunk with
  | some e => .ok (e, rest)
  | none => .error (.invalidData "invalid G1")

/-- The G2 reader local to `VerifyingKey::read`. -/
def readG2Vk (E : Engine) (s : List Nat) : Except IOErr (E.G2 × List Nat) := do
  let (chunk, rest) ← readBytesE E.g2USize s
  match E.g2FromU chunk with
  | some e => .ok (e, rest)
  | none => .error (.invalidData "invalid G2")

/-- The `ic` entries of `VerifyingKey::read`: decoded by the key's G1 reader
and then rejected if they are the identity. -/
def readG1Ic (E : Engine) (s : List Nat) : Except IOErr (E.G1 × List Nat) := do
  let (e, rest) ← readG1Vk E s
  if E.g1Beq e E.g1Zero then .error (.invalidData "point at infinity")
  else .ok (e, rest)

/-- The free function `read_g1::<R, E>(reader, checked)` used by
`Parameters::read` and `ExtendedParameters::read`: uncompressed decoding,
subgroup check only in `checked` mode, identity always rejected. -/
def readG1Checked (E : Engine) (checked : Bool) (s : List Nat) :
    Except IOErr (E.G1 × List Nat) := do
  let (chunk, rest) ← readBytesE E.g1USize s
  match (if checked then E.g1FromU chunk else E.g1FromUU chunk) with
  | some e =>
    if E.g1Beq e E.g1Zero then .error (.invalidData "point at infinity")
    else .ok (e, rest)
  | none => .error (.invalidData "invalid G1")

/-- The free function `read_g2::<R, E>(reader, checked)`. -/
def readG2Checked (E : Engine) (checked : Bool) (s : List Nat) :
    Except IOErr (E.G2 × List Nat) := do
  let (chunk, rest) ← readBytesE E.g2USize s
  match (if checked then E.g2FromU chunk else E.g2FromUU chunk) with
  | some e =>
    if E.g2Beq e E.g2Zero then .error (.invalidData "point at infinity")
    else .ok (e, rest)
  | none => .error (.invalidData "invalid G2")

/-- A length-`n` loop of a fixed element reader. -/
def readVec {α : Type} (rd : List Nat → Except IOErr (α × List Nat)) :
    Nat → List Nat → Except IOErr (List α × List Nat)
  | 0, s => .ok ([], s)
  | n + 1, s => do
    let (x, s1) ← rd s
    let (xs, s2) ← readVec rd n s1
    .ok (x :: xs, s2)

/-- `Proof::write`: three compressed points. -/
def Proof.write (E : Engine) (p : Proof E) : List Nat :=
  E.g1ToC p.a ++ E.g2ToC p.b ++ E.g1ToC p.c

/-- `Proof::read`. -/
def Proof.read (E : Engine) (s : List Nat) : Except IOErr (Proof E × List Nat) := do
  let (a, s) ← readG1Cmp E s
  let (b, s) ← readG2Cmp E s
  let (c, s) ← readG1Cmp E s
  .ok (⟨a, b, c⟩, s)

/-- `VerifyingKey::write`: six uncompressed points, then the u32 length of
`ic`, then the `ic` entries. -/
def VerifyingKey.write (E : Engine) (vk : VerifyingKey E) : List Nat :=
  E.g1ToU vk.alpha_g1 ++ E.g1ToU vk.beta_g1 ++ E.g2ToU vk.beta_g2 ++
  E.g2ToU vk.gamma_g2 ++ E.g1ToU vk.delta_g1 ++ E.g2ToU vk.delta_g2 ++
  writeU32 vk.ic.length ++ (vk.ic.map (E.g1ToU ·)).flatten

/-- `VerifyingKey::read`. -/
def VerifyingKey.read (E : Engine) (s : List Nat) :
    Except IOErr (VerifyingKey E × List Nat) := do
  let (alpha_g1, s) ← readG1Vk E s
  let (beta_g1, s) ← readG1Vk E s
  let (beta_g2, s) ← readG2Vk E s
  let (gamma_g2, s) ← readG2Vk E s
  let (delta_g1, s) ← readG1Vk E s
  let (delta_g2, s) ← readG2Vk E s
  let (icLen, s) ← readU32 s
  let (ic, s) ← readVec (readG1Ic E) icLen s
  .ok (⟨alpha_g1, beta_g1, beta_g2, gamma_g2, delta_g1, delta_g2, ic⟩, s)

/-- A u32-length-prefixed uncompressed array, as written by
`Parameters::write` for each of its five arrays. -/
def writeArr {α : Type} (enc : α → List Nat) (xs : List α) : List Nat :=
  writeU32 xs.length ++ (xs.map enc).flatten

/-- `Parameters::write`. -/
def Parameters.write (E : Engine) (ps : Parameters E) : List Nat :=
  VerifyingKey.write E ps.vk ++
  writeArr (E.g1ToU ·) ps.h ++ writeArr (E.g1ToU ·) ps.l ++
  writeArr (E.g1ToU ·) ps.a ++ writeArr (E.g1ToU ·) ps.b_g1 ++
  writeArr (E.g2ToU ·) ps.b_g2

/-- A u32-length prefix followed by that many elements of a fixed reader. -/
def readArr {α : Type} (rd : List Nat → Except IOErr (α × List Nat))
    (s : List Nat) : Except IOErr (List α × List Nat) := do
  let (len, s1) ← readU32 s
  readVec rd len s1

/-- `Parameters::read`. -/
def Parameters.read (E : Engine) (checked : Bool) (s : List Nat) :
    Except IOErr (Parameters E × List Nat) := do
  let (vk, s) ← VerifyingKey.read E s
  let (h, s) ← readArr (readG1Checked E checked) s
  let (l, s) ← readArr (readG1Checked E checked) s
  let (a, s) ← readArr (readG1Checked E checked) s
  let (b_g1, s) ← readArr (readG1Checked E checked) s
  let (b_g2, s) ← readArr (readG2Checked E checked) s
  .ok (⟨vk, h, l, a, b_g1, b_g2⟩, s)

/-- `ExtendedParameters::write`. -/
def ExtendedParameters.write (E : Engine) (ep : ExtendedParameters E) : List Nat :=
  Parameters.write E ep.params ++
  writeArr (E.g1ToU ·) ep.taus_g1 ++ writeArr (E.g2ToU ·) ep.taus_g2

/-- `ExtendedParameters::read`. -/
def ExtendedParameters.read (E : Engine) (checked : Bool) (s : List Nat) :
    Except IOErr (ExtendedParameters E × List Nat) := do
  let (params, s) ← Parameters.read E checked s
  let (taus_g1, s) ← readArr (readG1Checked E checked) s
  let (taus_g2, s) ← readArr (readG2Checked E checked) s
  .ok (⟨params, taus_g1, taus_g2⟩, s)

/-- `enum Index`: a wire handle, tagged public-input or auxiliary.
(`Variable` is a newtype around it and is identified with it here.) -/
inductive Index where
  | input : Nat → Index
  | auxiliary : Nat → Index
deriving DecidableEq, Repr

/-- A `LinearCombination`: the ordered list of `(Variable, coefficient)`
terms it carries. -/
abbrev LinearCombination (E : Engine) : Type := List (Index × E.Fr)

/-- A wire handle is in range for the given numbers of allocated
public-input and auxiliary wires. -/
def idxOk (nI nX : Nat) : Index → Prop
  | Index.input j => j < nI
  | Index.auxiliary j => j < nX

instance (nI nX : Nat) (ix : Index) : Decidable (idxOk nI nX ix) :=
  match ix with
  | .input j => inferInstanceAs (Decidable (j < nI))
  | .auxiliary j => inferInstanceAs (Decidable (j < nX))

/-- `struct KeypairAssembly`: per-wire sparse `(coefficient,
constraint_index)` rows for the A/B/C matrices, split between public-input
wires and auxiliary wires, plus running counters. -/
structure KeypairAssembly (E : Engine) where
  num_inputs : Nat
  num_aux : Nat
  num_constraints : Nat
  at_inputs : List (List (E.Fr × Nat))
  bt_inputs : List (List (E.Fr × Nat))
  ct_inputs : List (List (E.Fr × Nat))
  at_aux : List (List (E.Fr × Nat))
  bt_aux : List (List (E.Fr × Nat))
  ct_aux : List (List (E.Fr × Nat))

/-- `KeypairAssembly::alloc`: ignores the value-producing closure `f`,
appends empty rows for the new auxiliary wire, and hands back its index. -/
def KeypairAssembly.alloc (E : Engine) (A : KeypairAssembly E)
    (f : Unit → Except SynthesisError E.Fr) :
    Except SynthesisError (Index × KeypairAssembly E) :=
  .ok (Index.auxiliary A.num_aux,
    { A with
      num_aux := A.num_aux + 1
      at_aux := A.at_aux ++ [[]]
      bt_aux := A.bt_aux ++ [[]]
      ct_aux := A.ct_aux ++ [[]] })

/-- `KeypairAssembly::alloc_input`: ignores the value-producing closure `f`,
appends empty rows for the new public-input wire, and hands back its index. -/
def KeypairAssembly.alloc_input (E : Engine) (A : KeypairAssembly E)
    (f : Unit → Except SynthesisError E.Fr) :
    Except SynthesisError (Index × KeypairAssembly E) :=
  .ok (Index.input A.num_inputs,
    { A with
      num_inputs := A.num_inputs + 1
      at_inputs := A.at_inputs ++ [[]]
      bt_inputs := A.bt_inputs ++ [[]]
      ct_inputs := A.ct_inputs ++ [[]] })

/-- `rows[id].push(entry)`, propagating the out-of-bounds panic as `none`. -/
def pushAt {α : Type} : List (List α) → Nat → α → Option (List (List α))
  | [], _, _ => none
  | row :: rows, 0, a => some ((row ++ [a]) :: rows)
  | row :: rows, n + 1, a => (pushAt rows n a).map (row :: ·)

/-- The local `eval` of `KeypairAssembly::enforce`: distribute each
`(index, coeff)` term of one linear combination into the matching per-wire
row, tagged with the current constraint index. -/
def evalLC (E : Engine) : LinearCombination E →
    List (List (E.Fr × Nat)) → List (List (E.Fr × Nat)) → Nat →
    Option (List (List (E.Fr × Nat)) × List (List (E.Fr × Nat)))
  | [], inputs, auxRows, _ => some (inputs, auxRows)
  | (ix, coeff) :: rest, inputs, auxRows, k =>
    match ix with
    | .input id =>
      (pushAt inputs id (coeff, k)).bind fun inputs1 =>
        evalLC E rest inputs1 auxRows k
    | .auxiliary id =>
      (pushAt auxRows id (coeff, k)).bind fun auxRows1 =>
        evalLC E rest inputs auxRows1 k

/-- `KeypairAssembly::enforce`: distribute the three linear combinations
into the A, B, C matrices at the current constraint index, then increment
the constraint counter. -/
def KeypairAssembly.enforce (E : Engine) (A : KeypairAssembly E)
    (la lb lc : LinearCombination E) : Option (KeypairAssembly E) := do
  let (ai, aa) ← evalLC E la A.at_inputs A.at_aux A.num_constraints
  let (bi, ba) ← evalLC E lb A.bt_inputs A.bt_aux A.num_constraints
  let (ci, ca) ← evalLC E lc A.ct_inputs A.ct_aux A.num_constraints
  some { A with
    at_inputs := ai, at_aux := aa
    bt_inputs := bi, bt_aux := ba
    ct_inputs := ci, ct_aux := ca
    num_constraints := A.num_constraints + 1 }

/-- `KeypairAssembly::push_namespace`: does nothing. -/
def KeypairAssembly.push_namespace (E : Engine) (A : KeypairAssembly E) :
    KeypairAssembly E := A

/-- `KeypairAssembly::pop_namespace`: does nothing. -/
def KeypairAssembly.pop_namespace (E : Engine) (A : KeypairAssembly E) :
    KeypairAssembly E := A

/-- Modelled from the spec (§4.2): a circuit is a synthesize callback that
interacts with the constraint system only through the `ConstraintSystem`
operations, so it is represented as the sequence of operations it performs.
Allocation handles are sequential, so a linear combination can name wires by
`Index` directly.  `circuitFail` models a circuit-specific synthesis error
returned mid-synthesis. -/
inductive CircuitOp (E : Engine) where
  | alloc : (Unit → Except SynthesisError E.Fr) → CircuitOp E
  | allocInput : (Unit → Except SynthesisError E.Fr) → CircuitOp E
  | enforce : LinearCombination E → LinearCombination E → LinearCombination E → CircuitOp E
  | pushNs : CircuitOp E
  | popNs : CircuitOp E
  | circuitFail : SynthesisError → CircuitOp E

/-- `circuit.synthesize(&mut assembly)`: run the circuit's operations
against the assembly. -/
def runOps (E : Engine) : List (CircuitOp E) → KeypairAssembly E →
    PR (KeypairAssembly E)
  | [], A => .ok A
  | op :: rest, A =>
    match op with
    | .alloc f =>
      match KeypairAssembly.alloc E A f with
      | .ok r => runOps E rest r.2
      | .error e => .err e
    | .allocInput f =>
      match KeypairAssembly.alloc_input E A f with
      | .ok r => runOps E rest r.2
      | .error e => .err e
    | .enforce la lb lc =>
      match KeypairAssembly.enforce E A la lb lc with
      | some A1 => runOps E rest A1
      | none => .panicked
    | .pushNs => runOps E rest (KeypairAssembly.push_namespace E A)
    | .popNs => runOps E rest (KeypairAssembly.pop_namespace E A)
    | .circuitFail e => .err e

/-- One iteration of the post-synthesis loop: `enforce(input_i * 0 = 0)`,
i.e. the A combination is `lc + Variable(Index::Input(i))` (one term with
coefficient one) and the B and C combinations are zero. -/
def inputConstraintStep (E : Engine) (i : Nat) (A : KeypairAssembly E) :
    Option (KeypairAssembly E) :=
  KeypairAssembly.enforce E A [(Index.input i, E.frOne)] [] []

def inputConstraintsGo (E : Engine) : List Nat → KeypairAssembly E →
    Option (KeypairAssembly E)
  | [], A => some A
  | i :: rest, A =>
    match inputConstraintStep E i A with
    | some A1 => inputConstraintsGo E rest A1
    | none => none

/-- The `for i in 0..assembly.num_inputs` loop of `verify` that appends one
`input_i * 0 = 0` constraint per public-input wire. -/
def inputConstraints (E : Engine) (A : KeypairAssembly E) :
    Option (KeypairAssembly E) :=
  inputConstraintsGo E (List.range A.num_inputs) A

/-- The empty assembly literal built at the start of `verify`. -/
def emptyAssembly (E : Engine) : KeypairAssembly E :=
  ⟨0, 0, 0, [], [], [], [], [], []⟩

/-- The synthesis pipeline of `verify`: allocate the implicit constant-one
input, synthesize the circuit, then append the input constraints. -/
def synthAssembly (E : Engine) (circuit : List (CircuitOp E)) :
    PR (KeypairAssembly E) := do
  let A0 := emptyAssembly E
  let r ←
    match KeypairAssembly.alloc_input E A0 (fun _ => Except.ok E.frOne) with
    | .ok r => PR.ok r
    | .error e => PR.err e
  let A1 ← runOps E circuit r.2
  match inputConstraints E A1 with
  | some A2 => .ok A2
  | none => .panicked

def multiexpGo {G F : Type} (add : G → G → G) (smul : F → G → G) :
    List G → List Bool → List F → G → G
  | bases, true :: ds, s :: ss, acc =>
    match bases with
    | [] => acc
    | b :: bs => multiexpGo add smul bs ds ss (add acc (smul s b))
  | bases, false :: ds, _ :: ss, acc => multiexpGo add smul bases ds ss acc
  | _, _, _, acc => acc

/-- Modelled from the spec (§1, §6, glossary): the external
multi-exponentiation primitive — the weighted sum `Σ scalar_i * base_i` of a
sequence of bases by a parallel sequence of scalars, where a per-index
density mask selects which scalar positions consume a base. -/
def multiexp {G F : Type} (add : G → G → G) (smul : F → G → G) (zero : G)
    (bases : List G) (density : List Bool) (scalars : List F) : G :=
  multiexpGo add smul bases density scalars zero

/-- `FullDensity`: every position carries a base. -/
def fullDensity (n : Nat) : List Bool := List.replicate n true

def frPow {F : Type} (mul : F → F → F) (one : F) (x : F) : Nat → F
  | 0 => one
  | n + 1 => mul x (frPow mul one x n)

/-- Smallest power of two that is at least `n` (the evaluation-domain size
chosen by `EvaluationDomain::from_coeffs`): double an accumulator starting
at `1` until it reaches `n` (at most `n` doublings are ever needed). -/
def nextPow2 (n : Nat) : Nat :=
  (List.range n).foldl (fun acc _ => if acc < n then acc * 2 else acc) 1

/-- Modelled from the spec (§4.3, glossary): the inverse discrete Fourier
transform over an evaluation domain of `m`-th roots of unity —
`out[i] = m⁻¹ * Σ_j ω⁻^(i*j) * vals[j]` — which converts point-value
encodings into Lagrange-basis coefficients. -/
def idft {G F : Type} (add : G → G → G) (zero : G) (smul : F → G → G)
    (frMul : F → F → F) (frOne : F) (winv minv : F) (vals : List G) : List G :=
  (List.range vals.length).map fun i =>
    smul minv ((List.range vals.length).foldl
      (fun acc j => add acc (smul (frPow frMul frOne winv (i * j)) (vals.getD j zero)))
      zero)

/-- Modelled from the spec (§4.3): `EvaluationDomain::from_coeffs` followed
by `ifft` on G1 values — pad to the next power of two with the group
identity, then inverse-FFT over that domain. -/
def Engine.ifftG1 (E : Engine) (vals : List E.G1) : List E.G1 :=
  let m := nextPow2 vals.length
  let padded := vals ++ List.replicate (m - vals.length) E.g1Zero
  idft E.g1Add E.g1Zero E.g1Smul E.frMul E.frOne (E.rootInv m) (E.sizeInv m) padded

/-- Modelled from the spec (§4.3): the same conversion on G2 values. -/
def Engine.ifftG2 (E : Engine) (vals : List E.G2) : List E.G2 :=
  let m := nextPow2 vals.length
  let padded := vals ++ List.replicate (m - vals.length) E.g2Zero
  idft E.g2Add E.g2Zero E.g2Smul E.frMul E.frOne (E.rootInv m) (E.sizeInv m) padded

/-- Modelled from the spec (§3): `PreparedVerifyingKey` — the pairing
`e(alpha_g1, beta_g2)`, the negated (and prepared) `gamma_g2` and
`delta_g2`, and a copy of `ic`. -/
structure PreparedVerifyingKey (E : Engine) where
  alpha_g1_beta_g2 : E.Fqk
  neg_gamma_g2 : E.G2
  neg_delta_g2 : E.G2
  ic : List E.G1

/-- Modelled from the spec (§3, §11): `prepare_verifying_key`. -/
def prepareVerifyingKey (E : Engine) (vk : VerifyingKey E) :
    PreparedVerifyingKey E :=
  ⟨Engine.pair E vk.alpha_g1 vk.beta_g2, E.g2Neg vk.gamma_g2,
    E.g2Neg vk.delta_g2, vk.ic⟩

/-- Check 1 of `verify` (source step 1/2): non-degeneracy of the two
generators, `alpha_g1`, `beta_g1`, `gamma_g2`, `delta_g1` and `h[0]`
(indexing `h[0]` panics when `h` is empty).  `beta_g2` and `delta_g2` do
not appear here. -/
def checkNonDeg (E : Engine) (ep : ExtendedParameters E)
    (g1 : E.G1) (g2 : E.G2) : PR Unit := do
  guardCrs (!(E.g1Beq g1 E.g1Zero))
  guardCrs (!(E.g2Beq g2 E.g2Zero))
  guardCrs (!(E.g1Beq ep.params.vk.alpha_g1 E.g1Zero))
  guardCrs (!(E.g1Beq ep.params.vk.beta_g1 E.g1Zero))
  guardCrs (!(E.g2Beq ep.params.vk.gamma_g2 E.g2Zero))
  guardCrs (!(E.g1Beq ep.params.vk.delta_g1 E.g1Zero))
  let h0 ← idx ep.params.h 0
  guardCrs (!(E.g1Beq h0 E.g1Zero))

/-- Check 2 of `verify` (source step 4): cross-group consistency of
`beta` and `delta`. -/
def checkCross (E : Engine) (ep : ExtendedParameters E)
    (g1 : E.G1) (g2 : E.G2) : PR Unit := do
  guardCrs (E.fqkBeq (Engine.pair E g1 ep.params.vk.beta_g2)
    (Engine.pair E ep.params.vk.beta_g1 g2))
  guardCrs (E.fqkBeq (Engine.pair E g1 ep.params.vk.delta_g2)
    (Engine.pair E ep.params.vk.delta_g1 g2))

/-- The H-query validation block of `verify`: scalars `r_i` are the `d`
fresh random draws starting at stream position `off`. -/
def checkH (E : Engine) (ep : ExtendedParameters E)
    (pvk : PreparedVerifyingKey E) (g1 : E.G1) (d : Nat)
    (rng : Nat → E.Fr) (off : Nat) : PR Unit := do
  let r := (List.range d).map fun i => rng (off + i)
  let t2 := ep.taus_g2.take d
  let t2s := ep.taus_g2.drop 1
  assertB (ep.params.h.length == d)
  assertB (t2.length == d)
  assertB (r.length == d)
  let acc_h := multiexp E.g1Add E.g1Smul E.g1Zero ep.params.h (fullDensity r.length) r
  let acc_t2 := multiexp E.g2Add E.g2Smul E.g2Zero t2 (fullDensity r.length) r
  let acc_t2s := multiexp E.g2Add E.g2Smul E.g2Zero t2s (fullDensity r.length) r
  let taud ← idx ep.taus_g1 d
  let res := E.finalExp (millerLoop E
    [(acc_h, pvk.neg_delta_g2), (E.g1Neg g1, acc_t2), (taud, acc_t2s)])
  guardCrs (E.fqkBeq res E.fqkOne)

/-- The powers-of-tau validation block of `verify`: scalars `p_i` are the
`d` fresh draws starting at position `off` and `q_i` the next `d` draws. -/
def checkTau (E : Engine) (ep : ExtendedParameters E) (d : Nat)
    (rng : Nat → E.Fr) (off : Nat) : PR Unit := do
  let p := (List.range d).map fun i => rng (off + i)
  let q := (List.range d).map fun i => rng (off + d + i)
  let pq := List.zipWith E.frAdd p q
  let bases_pq := ep.taus_g1.drop 1
  let bases_p := ep.taus_g1.take d
  let bases_q := ep.taus_g2.drop 1
  let pq_tau := multiexp E.g1Add E.g1Smul E.g1Zero bases_pq (fullDensity pq.length) pq
  let p_tau := multiexp E.g1Add E.g1Smul E.g1Zero bases_p (fullDensity p.length) p
  let q_tau := multiexp E.g2Add E.g2Smul E.g2Zero bases_q (fullDensity q.length) q
  let g1 ← idx ep.taus_g1 0
  let g2head ← idx ep.taus_g2 0
  let neg_g2 := E.g2Neg g2head
  let tau_g2 ← idx ep.taus_g2 1
  let res := E.finalExp (millerLoop E
    [(pq_tau, neg_g2), (p_tau, tau_g2), (g1, q_tau)])
  guardCrs (E.fqkBeq res E.fqkOne)

/-- Per-wire accumulation of `Σ coeff * coeffs[lag]` over a sparse row,
with the source's out-of-bounds panic on `coeffs[lag]`. -/
def wireEvalGo {G F : Type} (add : G → G → G) (smul : F → G → G)
    (coeffs : List G) : List (F × Nat) → G → PR G
  | [], acc => .ok acc
  | (coeff, lag) :: rest, acc =>
    match coeffs[lag]? with
    | some base => wireEvalGo add smul coeffs rest (add acc (smul coeff base))
    | none => .panicked

def wireEval {G F : Type} (add : G → G → G) (smul : F → G → G) (zero : G)
    (coeffs : List G) (row : List (F × Nat)) : PR G :=
  wireEvalGo add smul coeffs row zero

/-- The quantities produced by the QAP-evaluation phase of `verify` and
consumed by the last two checks: the zero-filtered per-wire evaluations,
the density masks of the three matrices, and the wire counts. -/
structure QapArrays (E : Engine) where
  a_aff : List E.G1
  b1_aff : List E.G1
  b2_aff : List E.G2
  c_aff : List E.G1
  dens_a : List Bool
  dens_b : List Bool
  dens_c : List Bool
  num_inputs : Nat
  num_aux : Nat

/-- The QAP-evaluation phase of `verify`: inverse-FFT the powers of tau into
Lagrange coefficients, evaluate every wire's A/B/C polynomials at tau in
the exponent, and filter out the wires whose evaluation is the identity
(`get_density` marks the wires with a nonempty row). -/
def qapEval (E : Engine) (ep : ExtendedParameters E)
    (A : KeypairAssembly E) : PR (QapArrays E) := do
  let coeffs_g1 := E.ifftG1 ep.taus_g1
  let coeffs_g2 := E.ifftG2 ep.taus_g2
  let at_rows := A.at_inputs ++ A.at_aux
  let bt_rows := A.bt_inputs ++ A.bt_aux
  let ct_rows := A.ct_inputs ++ A.ct_aux
  let num_wires := A.num_inputs + A.num_aux
  assertB (num_wires == at_rows.length)
  assertB (num_wires == bt_rows.length)
  assertB (num_wires == ct_rows.length)
  let a_g1 ← at_rows.mapM (fun row => wireEval E.g1Add E.g1Smul E.g1Zero coeffs_g1 row)
  let b_g1 ← bt_rows.mapM (fun row => wireEval E.g1Add E.g1Smul E.g1Zero coeffs_g1 row)
  let b_g2 ← bt_rows.mapM (fun row => wireEval E.g2Add E.g2Smul E.g2Zero coeffs_g2 row)
  let c_g1 ← ct_rows.mapM (fun row => wireEval E.g1Add E.g1Smul E.g1Zero coeffs_g1 row)
  .ok ⟨a_g1.filter (fun e => !(E.g1Beq e E.g1Zero)),
       b_g1.filter (fun e => !(E.g1Beq e E.g1Zero)),
       b_g2.filter (fun e => !(E.g2Beq e E.g2Zero)),
       c_g1.filter (fun e => !(E.g1Beq e E.g1Zero)),
       at_rows.map (fun row => !row.isEmpty),
       bt_rows.map (fun row => !row.isEmpty),
       ct_rows.map (fun row => !row.isEmpty),
       A.num_inputs, A.num_aux⟩

/-- The circuit-validation block of `verify` (spec check 5): one random
scalar per wire (drawn from stream position `off` on), density-masked
multi-exponentiations of the fresh evaluations, full-density sums over the
stored `l` and `ic` arrays, and a single five-pair pairing product.
The `assert_eq!(self.params.l.len(), assembly.num_aux)` that precedes the
block in the source is included here, before the scalars are drawn. -/
def checkQap (E : Engine) (ep : ExtendedParameters E)
    (pvk : PreparedVerifyingKey E) (g2 : E.G2) (qa : QapArrays E)
    (rng : Nat → E.Fr) (off : Nat) : PR Unit := do
  assertB (ep.params.l.length == qa.num_aux)
  let num_wires := qa.num_inputs + qa.num_aux
  let z := (List.range num_wires).map fun i => rng (off + i)
  let z_inp := z.take qa.num_inputs
  let z_aux := z.drop qa.num_inputs
  let acc_a := multiexp E.g1Add E.g1Smul E.g1Zero qa.a_aff qa.dens_a z
  let acc_b := multiexp E.g2Add E.g2Smul E.g2Zero qa.b2_aff qa.dens_b z
  let acc_c := multiexp E.g1Add E.g1Smul E.g1Zero qa.c_aff qa.dens_c z
  let acc_l := multiexp E.g1Add E.g1Smul E.g1Zero ep.params.l (fullDensity z_aux.length) z_aux
  let acc_ic := multiexp E.g1Add E.g1Smul E.g1Zero ep.params.vk.ic (fullDensity z_inp.length) z_inp
  let res := E.finalExp (millerLoop E
    [(acc_a, ep.params.vk.beta_g2), (ep.params.vk.alpha_g1, acc_b),
     (acc_c, g2), (acc_l, pvk.neg_delta_g2), (acc_ic, pvk.neg_gamma_g2)])
  guardCrs (E.fqkBeq res E.fqkOne)

/-- Boolean list equality by an element comparator (Rust `Vec` `PartialEq`). -/
def listBeq {α : Type} (beq : α → α → Bool) : List α → List α → Bool
  | [], [] => true
  | x :: xs, y :: ys => beq x y && listBeq beq xs ys
  | _, _ => false

/-- The final structural-equality step of `verify` (spec check 6),
implemented in the source by three `assert_eq!` statements — which PANIC on
failure instead of returning `MalformedCrs`. -/
def checkStruct (E : Engine) (ep : ExtendedParameters E)
    (qa : QapArrays E) : PR Unit := do
  assertB (listBeq E.g1Beq qa.a_aff ep.params.a)
  assertB (listBeq E.g1Beq qa.b1_aff ep.params.b_g1)
  assertB (listBeq E.g2Beq qa.b2_aff ep.params.b_g2)

/-- `ExtendedParameters::verify`, block by block in SOURCE order: the
initial length assertion and generator reads, non-degeneracy, cross-group
consistency, then the H-query block (which in the source comes BEFORE the
powers-of-tau block), the powers-of-tau block, circuit synthesis, QAP
evaluation, the circuit-validation pairing check, and the final structural
`assert_eq!`s.  The caller-supplied RNG is the stream `rng`; the H block
consumes positions `0..d`, the tau block `d..3d`, and the per-wire scalars
`3d..3d+num_wires`, matching the sequential draws of the source. -/
def ExtendedParameters.verify (E : Engine) (ep : ExtendedParameters E)
    (circuit : List (CircuitOp E)) (rng : Nat → E.Fr) : PR Unit := do
  assertB (ep.taus_g1.length == ep.taus_g2.length)
  let g1 ← idx ep.taus_g1 0
  let g2 ← idx ep.taus_g2 0
  let d := ep.taus_g1.length - 1
  let pvk := prepareVerifyingKey E ep.params.vk
  checkNonDeg E ep g1 g2
  checkCross E ep g1 g2
  checkH E ep pvk g1 d rng 0
  checkTau E ep d rng d
  let A ← synthAssembly E circuit
  let qa ← qapEval E ep A
  checkQap E ep pvk g2 qa rng (3 * d)
  checkStruct E ep qa

/-- The check order CLAIMED by the spec (§4.4): powers-of-tau (check 3)
before the H-query validation (check 4), with the random draws consumed in
that order.  This definition follows the spec's words and exists only to be
compared against the source-order `ExtendedParameters.verify`. -/
def verifySpecClaimedOrder (E : Engine) (ep : ExtendedParameters E)
    (circuit : List (CircuitOp E)) (rng : Nat → E.Fr) : PR Unit := do
  assertB (ep.taus_g1.length == ep.taus_g2.length)
  let g1 ← idx ep.taus_g1 0
  let g2 ← idx ep.taus_g2 0
  let d := ep.taus_g1.length - 1
  let pvk := prepareVerifyingKey E ep.params.vk
  checkNonDeg E ep g1 g2
  checkCross E ep g1 g2
  checkTau E ep d rng 0
  checkH E ep pvk g1 d rng (2 * d)
  let A ← synthAssembly E circuit
  let qa ← qapEval E ep A
  checkQap E ep pvk g2 qa rng (3 * d)
  checkStruct E ep qa

/-- Arithmetic modulo 5 on `Fin 5`, written out explicitly so that every
toy-engine computation reduces by plain kernel evaluation. -/
def z5 (n : Nat) : Fin 5 := ⟨n % 5, Nat.mod_lt n (by omega)⟩

def z5add (x y : Fin 5) : Fin 5 := z5 (x.val + y.val)

def z5mul (x y : Fin 5) : Fin 5 := z5 (x.val * y.val)

def z5neg (x : Fin 5) : Fin 5 := z5 (5 - x.val)

/-- A 1-byte codec for the toy engine below: a value `v < 5` is encoded as
the single byte `v`; any other byte sequence is an invalid encoding. -/
def toyFromBytes (l : List Nat) : Option (Fin 5) :=
  match l with
  | [b] => if h : b < 5 then some ⟨b, h⟩ else none
  | _ => none

/-- A concrete instance of the algebraic interface used for witnesses: the
"exponent" model of a pairing over the scalar field of five elements.
`G1`, `G2` and the (multiplicatively written) target group are all `Fin 5`
written additively, the pairing is multiplication of exponents, the Miller
loop is the pairing itself and the final exponentiation is the identity.
`ω = 4` is a primitive square root of unity (`ω⁻¹ = 4`, `2⁻¹ = 3`) and
`ω = 2` a primitive fourth root (`ω⁻¹ = 3`, `4⁻¹ = 4`). -/
@[reducible] def toyE : Engine where
  G1 := Fin 5
  G2 := Fin 5
  Fr := Fin 5
  Fqk := Fin 5
  g1Beq := fun x y => decide (x = y)
  g2Beq := fun x y => decide (x = y)
  fqkBeq := fun x y => decide (x = y)
  g1Zero := z5 0
  g2Zero := z5 0
  g1Add := z5add
  g2Add := z5add
  g1Neg := z5neg
  g2Neg := z5neg
  g1Smul := z5mul
  g2Smul := z5mul
  frZero := z5 0
  frOne := z5 1
  frAdd := z5add
  frMul := z5mul
  fqkOne := z5 0
  fqkMul := z5add
  miller := z5mul
  finalExp := id
  rootInv := fun m => if m = 2 then z5 4 else if m = 4 then z5 3 else z5 1
  sizeInv := fun m => if m = 2 then z5 3 else if m = 4 then z5 4 else z5 1
  g1CSize := 1
  g2CSize := 1
  g1USize := 1
  g2USize := 1
  g1ToC := fun x => [x.val]
  g2ToC := fun x => [x.val]
  g1ToU := fun x => [x.val]
  g2ToU := fun x => [x.val]
  g1FromC := toyFromBytes
  g2FromC := toyFromBytes
  g1FromU := toyFromBytes
  g2FromU := toyFromBytes
  g1FromUU := toyFromBytes
  g2FromUU := toyFromBytes

/-- An honestly generated toy CRS for the EMPTY circuit, with trapdoor
`tau = 2`, `alpha = beta = gamma = delta = 1`, domain size `2` (so
`d = 1`): `taus = [1, tau]`, `h = [z(tau)/delta] = [tau² - 1] = [3]`,
the single wire (the constant-one input) has A-row `[(1, 0)]` after the
appended input constraint, so its A-evaluation is the Lagrange value
`L₀(tau) = (1+tau)/2 = 4` and `ic₀ = beta*L₀(tau)/gamma = 4`. -/
def toyVk : VerifyingKey toyE :=
  ⟨z5 1, z5 1, z5 1, z5 1, z5 1, z5 1, [z5 4]⟩

def toyParamsHonest : Parameters toyE :=
  ⟨toyVk, [z5 3], [], [z5 4], [], []⟩

def toyEpHonest : ExtendedParameters toyE :=
  ⟨toyParamsHonest, [z5 1, z5 2], [z5 1, z5 2]⟩

/-- The same CRS with the stored `a` array replaced by `[3]`: every pairing
check still passes (the `a` array feeds only the final structural
`assert_eq!`), but the recomputed zero-filtered A-evaluations are `[4]`. -/
def toyEpBadA : ExtendedParameters toyE :=
  ⟨⟨toyVk, [z5 3], [], [z5 3], [], []⟩, [z5 1, z5 2], [z5 1, z5 2]⟩

/-- The honest CRS with `h[0]` tampered from `3` to `4`: only the H-query
check is sensitive to it (after `h[0] ≠ 0` passes), and its batched
residual is `-r₀`, so it passes exactly when the random scalar `r₀` is 0. -/
def toyEpTamperH : ExtendedParameters toyE :=
  ⟨⟨toyVk, [z5 4], [], [z5 4], [], []⟩, [z5 1, z5 2], [z5 1, z5 2]⟩

/-- A CRS whose `h` has the wrong length (`0` instead of
`taus_g1.len() - 1 = 1`) and whose `taus_g1[0]` is the identity. -/
def toyEpLenBad : ExtendedParameters toyE :=
  ⟨⟨toyVk, [], [], [z5 4], [], []⟩, [z5 0, z5 2], [z5 1, z5 2]⟩

/-- Mismatched powers-of-tau array lengths. -/
def toyEpMismatch : ExtendedParameters toyE :=
  ⟨toyParamsHonest, [z5 1, z5 2], [z5 1]⟩

/-- A constant RNG stream. -/
def rngOne : Nat → Fin 5 := fun _ => z5 1

/-- An RNG stream whose first draw is `0` and whose later draws are `1`. -/
def rngZeroFirst : Nat → Fin 5 := fun n => if n = 0 then z5 0 else z5 1

instance {E : Engine} [DecidableEq E.G1] [DecidableEq E.G2] :
    DecidableEq (Proof E) := fun x y =>
  decidable_of_iff (x.a = y.a ∧ x.b = y.b ∧ x.c = y.c)
    (by cases x; cases y; simp [Proof.mk.injEq])

instance {E : Engine} [DecidableEq E.G1] [DecidableEq E.G2] :
    DecidableEq (VerifyingKey E) := fun x y =>
  decidable_of_iff (x.alpha_g1 = y.alpha_g1 ∧ x.beta_g1 = y.beta_g1 ∧
      x.beta_g2 = y.beta_g2 ∧ x.gamma_g2 = y.gamma_g2 ∧
      x.delta_g1 = y.delta_g1 ∧ x.delta_g2 = y.delta_g2 ∧ x.ic = y.ic)
    (by cases x; cases y; simp [VerifyingKey.mk.injEq])

instance {E : Engine} [DecidableEq E.G1] [DecidableEq E.G2] :
    DecidableEq (Parameters E) := fun x y =>
  decidable_of_iff (x.vk = y.vk ∧ x.h = y.h ∧ x.l = y.l ∧ x.a = y.a ∧
      x.b_g1 = y.b_g1 ∧ x.b_g2 = y.b_g2)
    (by cases x; cases y; simp [Parameters.mk.injEq])

instance {E : Engine} [DecidableEq E.G1] [DecidableEq E.G2] :
    DecidableEq (ExtendedParameters E) := fun x y =>
  decidable_of_iff (x.params = y.params ∧ x.taus_g1 = y.taus_g1 ∧
      x.taus_g2 = y.taus_g2)
    (by cases x; cases y; simp [ExtendedParameters.mk.injEq])

instance {ε α : Type} [DecidableEq ε] [DecidableEq α] : DecidableEq (Except ε α) :=
  fun x y =>
    match x, y with
    | .ok a, .ok b =>
      if h : a = b then isTrue (by rw [h]) else isFalse (by intro hc; cases hc; exact h rfl)
    | .error a, .error b =>
      if h : a = b then isTrue (by rw [h]) else isFalse (by intro hc; cases hc; exact h rfl)
    | .ok _, .error _ => isFalse (by intro hc; cases hc)
    | .error _, .ok _ => isFalse (by intro hc; cases hc)

/-- The invariants the codec enforces on a `Proof` value (the spec's
data-model invariants for decodability): no element is the identity. -/
abbrev ProofValid (E : Engine) (p : Proof E) : Prop :=
  E.g1Beq p.a E.g1Zero = false ∧ E.g2Beq p.b E.g2Zero = false ∧
  E.g1Beq p.c E.g1Zero = false

/-- The invariants the codec enforces on a `Parameters` value: no element of
`ic`/`h`/`l`/`a`/`b_g1`/`b_g2` is the identity, and every array length fits
in the u32 length prefix. -/
abbrev ParamsValid (E : Engine) (ps : Parameters E) : Prop :=
  (∀ g ∈ ps.vk.ic, E.g1Beq g E.g1Zero = false) ∧
  (∀ g ∈ ps.h, E.g1Beq g E.g1Zero = false) ∧
  (∀ g ∈ ps.l, E.g1Beq g E.g1Zero = false) ∧
  (∀ g ∈ ps.a, E.g1Beq g E.g1Zero = false) ∧
  (∀ g ∈ ps.b_g1, E.g1Beq g E.g1Zero = false) ∧
  (∀ g ∈ ps.b_g2, E.g2Beq g E.g2Zero = false) ∧
  ps.vk.ic.length < 4294967296 ∧ ps.h.length < 4294967296 ∧
  ps.l.length < 4294967296 ∧ ps.a.length < 4294967296 ∧
  ps.b_g1.length < 4294967296 ∧ ps.b_g2.length < 4294967296

/-- The invariants the codec enforces on an `ExtendedParameters` value. -/
abbrev ExtParamsValid (E : Engine) (ep : ExtendedParameters E) : Prop :=
  ParamsValid E ep.params ∧
  (∀ g ∈ ep.taus_g1, E.g1Beq g E.g1Zero = false) ∧
  (∀ g ∈ ep.taus_g2, E.g2Beq g E.g2Zero = false) ∧
  ep.taus_g1.length < 4294967296 ∧ ep.taus_g2.length < 4294967296

/-- The terms a linear combination contributes to the per-wire row of
public-input wire `i` when enforced at constraint index `k`. -/
def lcInputEntries (E : Engine) (l : LinearCombination E) (i k : Nat) :
    List (E.Fr × Nat) :=
  l.filterMap fun t =>
    match t.1 with
    | Index.input j => if j = i then some (t.2, k) else none
    | Index.auxiliary _ => none

/-- The terms a linear combination contributes to the per-wire row of
auxiliary wire `i` when enforced at constraint index `k`. -/
def lcAuxEntries (E : Engine) (l : LinearCombination E) (i k : Nat) :
    List (E.Fr × Nat) :=
  l.filterMap fun t =>
    match t.1 with
    | Index.input _ => none
    | Index.auxiliary j => if j = i then some (t.2, k) else none

/-- `Σ_{i=1}^{n} f i`, associated exactly as the multi-exponentiation's
left-to-right accumulation. -/
def sumR {G : Type} (add : G → G → G) (zero : G) (f : Nat → G) : Nat → G
  | 0 => zero
  | n + 1 => add (sumR add zero f n) (f (n + 1))

/-- The spec's statement of the powers-of-tau batch check (§4.4 check 3):
scalars `p_i`, `q_i` for `i ∈ 1..=d`, `pq_i = p_i + q_i`, the three
multi-exponentiations `PQ = Σ pq_i·taus_g1[i]`, `P = Σ p_i·taus_g1[i-1]`,
`Q = Σ q_i·taus_g2[i]`, and the pairing product
`e(PQ, -g2) * e(P, taus_g2[1]) * e(g1, Q)`.  `p_i` is the `(i-1)`-th and
`q_i` the `(d+i-1)`-th fresh random draw after stream position `off`. -/
def tauCheckSpecProduct (E : Engine) (ep : ExtendedParameters E) (d : Nat)
    (rng : Nat → E.Fr) (off : Nat) : E.Fqk :=
  let p : Nat → E.Fr := fun i => rng (off + (i - 1))
  let q : Nat → E.Fr := fun i => rng (off + d + (i - 1))
  let PQ := sumR E.g1Add E.g1Zero
    (fun i => E.g1Smul (E.frAdd (p i) (q i)) (ep.taus_g1.getD i E.g1Zero)) d
  let P := sumR E.g1Add E.g1Zero
    (fun i => E.g1Smul (p i) (ep.taus_g1.getD (i - 1) E.g1Zero)) d
  let Q := sumR E.g2Add E.g2Zero
    (fun i => E.g2Smul (q i) (ep.taus_g2.getD i E.g2Zero)) d
  E.fqkMul (E.fqkMul
    (Engine.pair E PQ (E.g2Neg (ep.taus_g2.getD 0 E.g2Zero)))
    (Engine.pair E P (ep.taus_g2.getD 1 E.g2Zero)))
    (Engine.pair E (ep.taus_g1.getD 0 E.g1Zero) Q)

/-- The honest toy CRS with `alpha_g1` replaced by the identity. -/
def toyEpAlphaId : ExtendedParameters toyE :=
  ⟨⟨⟨z5 0, z5 1, z5 1, z5 1, z5 1, z5 1, [z5 4]⟩, [z5 3], [], [z5 4], [], []⟩,
    [z5 1, z5 2], [z5 1, z5 2]⟩

/-- Concrete assembly for exercising the constraint-system operations:
one public-input wire and one auxiliary wire, no constraints yet. -/
def c8A : KeypairAssembly toyE := ⟨1, 1, 0, [[]], [[]], [[]], [[]], [[]], [[]]⟩

/-- A value-producing closure that succeeds. -/
def c8f : Unit → Except SynthesisError toyE.Fr := fun _ => .ok (z5 0)

/-- A value-producing closure that fails — if `alloc` ever invoked it, the
results for `c8f` and `c8g` would differ. -/
def c8g : Unit → Except SynthesisError toyE.Fr :=
  fun _ => .error .assignmentMissing

def c8la : LinearCombination toyE := [(Index.input 0, z5 1)]

def c8lb : LinearCombination toyE := [(Index.auxiliary 0, z5 2)]

def c8lc : LinearCombination toyE := []

/-- Concrete assembly for the input-constraint loop: two public-input
wires, one auxiliary wire, three prior constraints. -/
def c9A : KeypairAssembly toyE :=
  ⟨2, 1, 3, [[], []], [[], []], [[], []], [[]], [[]], [[]]⟩

@[simp] theorem PR.bind_ok_left {α β : Type} (a : α) (f : α → PR β) :
    PR.bind (.ok a) f = f a := rfl

@[simp] theorem PR.bind_err_left {α β : Type} (e : SynthesisError) (f : α → PR β) :
    PR.bind (.err e) f = .err e := rfl

@[simp] theorem PR.bind_panicked_left {α β : Type} (f : α → PR β) :
    PR.bind .panicked f = .panicked := rfl

@[simp] theorem PR.monad_bind_eq {α β : Type} (x : PR α) (f : α → PR β) :
    (x >>= f) = PR.bind x f := rfl

@[simp] theorem PR.monad_pure_eq {α : Type} (a : α) : (pure a : PR α) = .ok a := rfl

theorem PR.bind_eq_ok {α β : Type} {x : PR α} {f : α → PR β} {b : β} :
    PR.bind x f = .ok b ↔ ∃ a, x = .ok a ∧ f a = .ok b := by
  cases x <;> simp [PR.bind]

@[simp] theorem assertB_true : assertB true = .ok () := rfl

@[simp] theorem assertB_false : assertB false = .panicked := rfl

theorem assertB_eq_ok {b : Bool} : assertB b = .ok () ↔ b = true := by
  cases b <;> simp [assertB]

@[simp] theorem guardCrs_true : guardCrs true = .ok () := rfl

@[simp] theorem guardCrs_false : guardCrs false = .err .malformedCrs := rfl

theorem guardCrs_eq_ok {b : Bool} : guardCrs b = .ok () ↔ b = true := by
  cases b <;> simp [guardCrs]

theorem PR.bind_guard {α : Type} (b : Bool) (k : Unit → PR α) :
    PR.bind (guardCrs b) k = if b then k () else .err .malformedCrs := by
  cases b <;> simp [guardCrs]

theorem PR.bind_assert {α : Type} (b : Bool) (k : Unit → PR α) :
    PR.bind (assertB b) k = if b then k () else .panicked := by
  cases b <;> simp [assertB]

theorem idx_eq_ok {α : Type} {xs : List α} {i : Nat} {a : α} :
    idx xs i = .ok a ↔ xs[i]? = some a := by
  unfold idx
  cases h : xs[i]? <;> simp

@[simp] theorem idx_nil {α : Type} (i : Nat) : idx ([] : List α) i = .panicked := by
  unfold idx
  simp

theorem idx_of_getElem {α : Type} {xs : List α} {i : Nat} {a : α}
    (h : xs[i]? = some a) : idx xs i = .ok a := by
  unfold idx
  rw [h]

/-! Codec round-trip lemmas. -/

theorem exc_bind_ok {ε α β : Type} (a : α) (f : α → Except ε β) :
    (Except.ok a >>= f) = f a := rfl

theorem exc_bind_err {ε α β : Type} (e : ε) (f : α → Except ε β) :
    ((Except.error e : Except ε α) >>= f) = Except.error e := rfl

theorem exc_bind_eq_ok {ε α β : Type} {x : Except ε α} {f : α → Except ε β} {b : β} :
    (x >>= f) = .ok b ↔ ∃ a, x = .ok a ∧ f a = .ok b := by
  cases x <;> simp [exc_bind_ok, exc_bind_err]

theorem readBytesE_append {n : Nat} {c r : List Nat} (h : c.length = n) :
    readBytesE n (c ++ r) = .ok (c, r) := by
  subst h
  unfold readBytesE
  rw [if_pos (by simp)]
  simp

theorem readU32_writeU32 {n : Nat} (h : n < 4294967296) (r : List Nat) :
    readU32 (writeU32 n ++ r) = .ok (n, r) := by
  unfold readU32 writeU32
  rw [readBytesE_append (by simp [writeU32])]
  simp only [exc_bind_ok]
  congr 1
  ext
  · omega
  · rfl

theorem readG1Vk_enc {E : Engine} (hC : LawfulCodec E) (x : E.G1) (r : List Nat) :
    readG1Vk E (E.g1ToU x ++ r) = .ok (x, r) := by
  obtain ⟨-, -, h3, -, -, -, h7, -, -, -⟩ := hC
  unfold readG1Vk
  rw [readBytesE_append (h3 x)]
  simp [exc_bind_ok, h7 x]

theorem readG2Vk_enc {E : Engine} (hC : LawfulCodec E) (x : E.G2) (r : List Nat) :
    readG2Vk E (E.g2ToU x ++ r) = .ok (x, r) := by
  obtain ⟨-, -, -, h4, -, -, -, h8, -, -⟩ := hC
  unfold readG2Vk
  rw [readBytesE_append (h4 x)]
  simp [exc_bind_ok, h8 x]

theorem readG1Ic_enc {E : Engine} (hC : LawfulCodec E) (x : E.G1)
    (hx : E.g1Beq x E.g1Zero = false) (r : List Nat) :
    readG1Ic E (E.g1ToU x ++ r) = .ok (x, r) := by
  unfold readG1Ic
  rw [readG1Vk_enc hC]
  simp [exc_bind_ok, hx]

theorem readG1Ic_enc_id {E : Engine} (hC : LawfulCodec E) (x : E.G1)
    (hx : E.g1Beq x E.g1Zero = true) (r : List Nat) :
    readG1Ic E (E.g1ToU x ++ r) = .error (.invalidData "point at infinity") := by
  unfold readG1Ic
  rw [readG1Vk_enc hC]
  simp [exc_bind_ok, hx]

theorem readG1Cmp_enc {E : Engine} (hC : LawfulCodec E) (x : E.G1)
    (hx : E.g1Beq x E.g1Zero = false) (r : List Nat) :
    readG1Cmp E (E.g1ToC x ++ r) = .ok (x, r) := by
  obtain ⟨h1, -, -, -, h5, -, -, -, -, -⟩ := hC
  unfold readG1Cmp
  rw [readBytesE_append (h1 x)]
  simp [exc_bind_ok, h5 x, hx]

theorem readG1Cmp_enc_id {E : Engine} (hC : LawfulCodec E) (x : E.G1)
    (hx : E.g1Beq x E.g1Zero = true) (r : List Nat) :
    readG1Cmp E (E.g1ToC x ++ r) = .error (.invalidData "point at infinity") := by
  obtain ⟨h1, -, -, -, h5, -, -, -, -, -⟩ := hC
  unfold readG1Cmp
  rw [readBytesE_append (h1 x)]
  simp [exc_bind_ok, h5 x, hx]

theorem readG2Cmp_enc {E : Engine} (hC : LawfulCodec E) (x : E.G2)
    (hx : E.g2Beq x E.g2Zero = false) (r : List Nat) :
    readG2Cmp E (E.g2ToC x ++ r) = .ok (x, r) := by
  obtain ⟨-, h2, -, -, -, h6, -, -, -, -⟩ := hC
  unfold readG2Cmp
  rw [readBytesE_append (h2 x)]
  simp [exc_bind_ok, h6 x, hx]

theorem readG2Cmp_enc_id {E : Engine} (hC : LawfulCodec E) (x : E.G2)
    (hx : E.g2Beq x E.g2Zero = true) (r : List Nat) :
    readG2Cmp E (E.g2ToC x ++ r) = .error (.invalidData "point at infinity") := by
  obtain ⟨-, h2, -, -, -, h6, -, -, -, -⟩ := hC
  unfold readG2Cmp
  rw [readBytesE_append (h2 x)]
  simp [exc_bind_ok, h6 x, hx]

theorem readG1Checked_enc {E : Engine} (hC : LawfulCodec E) (checked : Bool)
    (x : E.G1) (hx : E.g1Beq x E.g1Zero = false) (r : List Nat) :
    readG1Checked E checked (E.g1ToU x ++ r) = .ok (x, r) := by
  obtain ⟨-, -, h3, -, -, -, h7, -, h9, -⟩ := hC
  unfold readG1Checked
  rw [readBytesE_append (h3 x)]
  cases checked <;> simp [exc_bind_ok, h7 x, h9 x, hx]

theorem readG2Checked_enc {E : Engine} (hC : LawfulCodec E) (checked : Bool)
    (x : E.G2) (hx : E.g2Beq x E.g2Zero = false) (r : List Nat) :
    readG2Checked E checked (E.g2ToU x ++ r) = .ok (x, r) := by
  obtain ⟨-, -, -, h4, -, -, -, h8, -, h10⟩ := hC
  unfold readG2Checked
  rw [readBytesE_append (h4 x)]
  cases checked <;> simp [exc_bind_ok, h8 x, h10 x, hx]

theorem readVec_enc {α : Type} (rd : List Nat → Except IOErr (α × List Nat))
    (enc : α → List Nat) (xs : List α)
    (hx : ∀ x ∈ xs, ∀ r, rd (enc x ++ r) = .ok (x, r)) (r : List Nat) :
    readVec rd xs.length ((xs.map enc).flatten ++ r) = .ok (xs, r) := by
  induction xs with
  | nil => simp [readVec]
  | cons x xs ih =>
    have hx0 := hx x (by simp)
    simp only [List.map_cons, List.flatten_cons, List.length_cons, List.append_assoc]
    unfold readVec
    rw [hx0]
    simp only [exc_bind_ok]
    rw [ih (fun y hy => hx y (by simp [hy]))]
    rfl

theorem readVec_err_of_id {E : Engine} (hC : LawfulCodec E) (xs : List E.G1)
    (hid : ∃ x ∈ xs, E.g1Beq x E.g1Zero = true) (r : List Nat) :
    readVec (readG1Ic E) xs.length ((xs.map (E.g1ToU ·)).flatten ++ r) =
      .error (.invalidData "point at infinity") := by
  induction xs with
  | nil => simp at hid
  | cons x xs ih =>
    simp only [List.map_cons, List.flatten_cons, List.length_cons, List.append_assoc]
    unfold readVec
    cases hbx : E.g1Beq x E.g1Zero with
    | true => rw [readG1Ic_enc_id hC x hbx]; rfl
    | false =>
      rw [readG1Ic_enc hC x hbx]
      simp only [exc_bind_ok]
      have : ∃ y ∈ xs, E.g1Beq y E.g1Zero = true := by
        obtain ⟨y, hy, hby⟩ := hid
        rcases List.mem_cons.mp hy with h | h
        · cases h; rw [hbx] at hby; cases hby
        · exact ⟨y, h, hby⟩
      rw [ih this]
      rfl

theorem readVec_ok_all {α : Type} {P : α → Prop}
    (rd : List Nat → Except IOErr (α × List Nat))
    (hrd : ∀ s g r, rd s = .ok (g, r) → P g) :
    ∀ (n : Nat) (s : List Nat) (gs : List α) (r : List Nat),
      readVec rd n s = .ok (gs, r) → ∀ g ∈ gs, P g := by
  intro n
  induction n with
  | zero =>
    intro s gs r h g hg
    unfold readVec at h
    cases h
    simp at hg
  | succ n ih =>
    intro s gs r h g hg
    unfold readVec at h
    rw [exc_bind_eq_ok] at h
    obtain ⟨⟨g1v, s1⟩, h1, h2⟩ := h
    rw [exc_bind_eq_ok] at h2
    obtain ⟨⟨gs2, s2⟩, h3, h4⟩ := h2
    cases h4
    rcases List.mem_cons.mp hg with h | h
    · subst h; exact hrd _ _ _ h1
    · exact ih _ _ _ h3 g h

theorem readG1Ic_ok_nonId {E : Engine} {s : List Nat} {g : E.G1} {r : List Nat}
    (h : readG1Ic E s = .ok (g, r)) : E.g1Beq g E.g1Zero = false := by
  unfold readG1Ic at h
  rw [exc_bind_eq_ok] at h
  obtain ⟨⟨g1v, s1⟩, -, h2⟩ := h
  dsimp only at h2
  split at h2
  · cases h2
  · rename_i hb
    cases h2
    simpa using hb

theorem readArr_enc_g1 {E : Engine} (hC : LawfulCodec E) (checked : Bool)
    (xs : List E.G1) (hlen : xs.length < 4294967296)
    (hx : ∀ g ∈ xs, E.g1Beq g E.g1Zero = false) (r : List Nat) :
    readArr (readG1Checked E checked) (writeArr (E.g1ToU ·) xs ++ r) = .ok (xs, r) := by
  unfold readArr writeArr
  rw [List.append_assoc, readU32_writeU32 hlen]
  simp only [exc_bind_ok]
  exact readVec_enc _ _ xs (fun x hxm r2 => readG1Checked_enc hC checked x (hx x hxm) r2) r

theorem readArr_enc_g2 {E : Engine} (hC : LawfulCodec E) (checked : Bool)
    (xs : List E.G2) (hlen : xs.length < 4294967296)
    (hx : ∀ g ∈ xs, E.g2Beq g E.g2Zero = false) (r : List Nat) :
    readArr (readG2Checked E checked) (writeArr (E.g2ToU ·) xs ++ r) = .ok (xs, r) := by
  unfold readArr writeArr
  rw [List.append_assoc, readU32_writeU32 hlen]
  simp only [exc_bind_ok]
  exact readVec_enc _ _ xs (fun x hxm r2 => readG2Checked_enc hC checked x (hx x hxm) r2) r

/-- Write-read round trip for `VerifyingKey`: note that NO identity condition
on the six fixed elements is needed, only on the `ic` entries. -/
theorem vk_read_write {E : Engine} (hC : LawfulCodec E)
    (vk : VerifyingKey E) (hlen : vk.ic.length < 4294967296)
    (hic : ∀ g ∈ vk.ic, E.g1Beq g E.g1Zero = false) (r : List Nat) :
    VerifyingKey.read E (VerifyingKey.write E vk ++ r) = .ok (vk, r) := by
  unfold VerifyingKey.read VerifyingKey.write
  simp only [List.append_assoc]
  rw [readG1Vk_enc hC]
  simp only [exc_bind_ok]
  rw [readG1Vk_enc hC]
  simp only [exc_bind_ok]
  rw [readG2Vk_enc hC]
  simp only [exc_bind_ok]
  rw [readG2Vk_enc hC]
  simp only [exc_bind_ok]
  rw [readG1Vk_enc hC]
  simp only [exc_bind_ok]
  rw [readG2Vk_enc hC]
  simp only [exc_bind_ok]
  rw [readU32_writeU32 hlen]
  simp only [exc_bind_ok]
  rw [readVec_enc (readG1Ic E) (E.g1ToU ·) vk.ic
    (fun x hxm r2 => readG1Ic_enc hC x (hic x hxm) r2) r]
  rfl

/-- Write-read round trip for `Parameters`, in both checked modes. -/
theorem params_read_write {E : Engine} (hC : LawfulCodec E) (checked : Bool)
    (ps : Parameters E) (hv : ParamsValid E ps) (r : List Nat) :
    Parameters.read E checked (Parameters.write E ps ++ r) = .ok (ps, r) := by
  obtain ⟨hic, hh, hl, ha, hb1, hb2, l1, l2, l3, l4, l5, l6⟩ := hv
  unfold Parameters.read Parameters.write
  simp only [List.append_assoc]
  rw [vk_read_write hC ps.vk l1 hic]
  simp only [exc_bind_ok]
  rw [readArr_enc_g1 hC checked ps.h l2 hh]
  simp only [exc_bind_ok]
  rw [readArr_enc_g1 hC checked ps.l l3 hl]
  simp only [exc_bind_ok]
  rw [readArr_enc_g1 hC checked ps.a l4 ha]
  simp only [exc_bind_ok]
  rw [readArr_enc_g1 hC checked ps.b_g1 l5 hb1]
  simp only [exc_bind_ok]
  rw [readArr_enc_g2 hC checked ps.b_g2 l6 hb2]
  rfl

/-- Write-read round trip for `ExtendedParameters`, in both checked modes. -/
theorem Extendedparams_read_write {E : Engine} (hC : LawfulCodec E)
    (checked : Bool) (ep : ExtendedParameters E) (hv : ExtParamsValid E ep)
    (r : List Nat) :
    ExtendedParameters.read E checked (ExtendedParameters.write E ep ++ r) =
      .ok (ep, r) := by
  obtain ⟨hps, h1, h2, l1, l2⟩ := hv
  unfold ExtendedParameters.read ExtendedParameters.write
  simp only [List.append_assoc]
  rw [params_read_write hC checked ep.params hps]
  simp only [exc_bind_ok]
  rw [readArr_enc_g1 hC checked ep.taus_g1 l1 h1]
  simp only [exc_bind_ok]
  rw [readArr_enc_g2 hC checked ep.taus_g2 l2 h2]
  rfl

/-- Write-read round trip for `Proof` under the no-identity conditions. -/
theorem proof_read_write {E : Engine} (hC : LawfulCodec E) (p : Proof E)
    (hv : ProofValid E p) (r : List Nat) :
    Proof.read E (Proof.write E p ++ r) = .ok (p, r) := by
  obtain ⟨ha, hb, hc2⟩ := hv
  unfold Proof.read Proof.write
  simp only [List.append_assoc]
  rw [readG1Cmp_enc hC p.a ha]
  simp only [exc_bind_ok]
  rw [readG2Cmp_enc hC p.b hb]
  simp only [exc_bind_ok]
  rw [readG1Cmp_enc hC p.c hc2]
  rfl

theorem readG1Cmp_ok_nonId {E : Engine} {s : List Nat} {g : E.G1} {r : List Nat}
    (h : readG1Cmp E s = .ok (g, r)) : E.g1Beq g E.g1Zero = false := by
  unfold readG1Cmp at h
  rw [exc_bind_eq_ok] at h
  obtain ⟨⟨chunk, rest⟩, -, h2⟩ := h
  dsimp only at h2
  split at h2
  · rename_i e heq
    split at h2
    · cases h2
    · rename_i hb
      cases h2
      simpa using hb
  · cases h2

theorem readG2Cmp_ok_nonId {E : Engine} {s : List Nat} {g : E.G2} {r : List Nat}
    (h : readG2Cmp E s = .ok (g, r)) : E.g2Beq g E.g2Zero = false := by
  unfold readG2Cmp at h
  rw [exc_bind_eq_ok] at h
  obtain ⟨⟨chunk, rest⟩, -, h2⟩ := h
  dsimp only at h2
  split at h2
  · rename_i e heq
    split at h2
    · cases h2
    · rename_i hb
      cases h2
      simpa using hb
  · cases h2

theorem Proof.read_ok_nonId {E : Engine} {s : List Nat} {p : Proof E}
    {r : List Nat} (h : Proof.read E s = .ok (p, r)) :
    E.g1Beq p.a E.g1Zero = false ∧ E.g2Beq p.b E.g2Zero = false ∧
    E.g1Beq p.c E.g1Zero = false := by
  unfold Proof.read at h
  rw [exc_bind_eq_ok] at h
  obtain ⟨⟨a, s1⟩, h1, h⟩ := h
  rw [exc_bind_eq_ok] at h
  obtain ⟨⟨b, s2⟩, h2, h⟩ := h
  rw [exc_bind_eq_ok] at h
  obtain ⟨⟨c, s3⟩, h3, h⟩ := h
  cases h
  exact ⟨readG1Cmp_ok_nonId h1, readG2Cmp_ok_nonId h2, readG1Cmp_ok_nonId h3⟩

theorem proof_read_write_id {E : Engine} (hC : LawfulCodec E) (p : Proof E)
    (hv : E.g1Beq p.a E.g1Zero = true ∨ E.g2Beq p.b E.g2Zero = true ∨
      E.g1Beq p.c E.g1Zero = true) :
    Proof.read E (Proof.write E p) =
      .error (.invalidData "point at infinity") := by
  unfold Proof.read Proof.write
  rw [List.append_assoc]
  cases ha : E.g1Beq p.a E.g1Zero with
  | true => rw [readG1Cmp_enc_id hC p.a ha]; rfl
  | false =>
    rw [readG1Cmp_enc hC p.a ha]
    simp only [exc_bind_ok]
    cases hb : E.g2Beq p.b E.g2Zero with
    | true => rw [readG2Cmp_enc_id hC p.b hb]; rfl
    | false =>
      rw [readG2Cmp_enc hC p.b hb]
      simp only [exc_bind_ok]
      cases hc2 : E.g1Beq p.c E.g1Zero with
      | true =>
        rw [← List.append_nil (E.g1ToC p.c), readG1Cmp_enc_id hC p.c hc2]
        rfl
      | false =>
        rcases hv with h | h | h
        · rw [h] at ha; cases ha
        · rw [h] at hb; cases hb
        · rw [h] at hc2; cases hc2

theorem Proof.read_truncated {E : Engine} {s : List Nat}
    (h : s.length < E.g1CSize) : Proof.read E s = .error .unexpectedEof := by
  unfold Proof.read readG1Cmp readBytesE
  rw [if_neg (by omega)]
  rfl

theorem VerifyingKey.read_ok_ic_nonId {E : Engine} {s : List Nat}
    {vk : VerifyingKey E} {r : List Nat}
    (h : VerifyingKey.read E s = .ok (vk, r)) :
    ∀ g ∈ vk.ic, E.g1Beq g E.g1Zero = false := by
  unfold VerifyingKey.read at h
  rw [exc_bind_eq_ok] at h
  obtain ⟨⟨x1, s1⟩, -, h⟩ := h
  rw [exc_bind_eq_ok] at h
  obtain ⟨⟨x2, s2⟩, -, h⟩ := h
  rw [exc_bind_eq_ok] at h
  obtain ⟨⟨x3, s3⟩, -, h⟩ := h
  rw [exc_bind_eq_ok] at h
  obtain ⟨⟨x4, s4⟩, -, h⟩ := h
  rw [exc_bind_eq_ok] at h
  obtain ⟨⟨x5, s5⟩, -, h⟩ := h
  rw [exc_bind_eq_ok] at h
  obtain ⟨⟨x6, s6⟩, -, h⟩ := h
  rw [exc_bind_eq_ok] at h
  obtain ⟨⟨n, s7⟩, -, h⟩ := h
  rw [exc_bind_eq_ok] at h
  obtain ⟨⟨ic, s8⟩, hic, h⟩ := h
  cases h
  exact readVec_ok_all (readG1Ic E) (fun _ _ _ hr => readG1Ic_ok_nonId hr) _ _ _ _ hic

theorem vk_read_write_id {E : Engine} (hC : LawfulCodec E)
    (vk : VerifyingKey E) (hlen : vk.ic.length < 4294967296)
    (hid : ∃ g ∈ vk.ic, E.g1Beq g E.g1Zero = true) :
    VerifyingKey.read E (VerifyingKey.write E vk) =
      .error (.invalidData "point at infinity") := by
  have base := readVec_err_of_id hC vk.ic hid []
  unfold VerifyingKey.read VerifyingKey.write
  rw [← List.append_nil (E.g1ToU vk.alpha_g1 ++ E.g1ToU vk.beta_g1 ++
    E.g2ToU vk.beta_g2 ++ E.g2ToU vk.gamma_g2 ++ E.g1ToU vk.delta_g1 ++
    E.g2ToU vk.delta_g2 ++ writeU32 vk.ic.length ++ (vk.ic.map (E.g1ToU ·)).flatten)]
  simp only [List.append_assoc]
  rw [readG1Vk_enc hC]
  simp only [exc_bind_ok]
  rw [readG1Vk_enc hC]
  simp only [exc_bind_ok]
  rw [readG2Vk_enc hC]
  simp only [exc_bind_ok]
  rw [readG2Vk_enc hC]
  simp only [exc_bind_ok]
  rw [readG1Vk_enc hC]
  simp only [exc_bind_ok]
  rw [readG2Vk_enc hC]
  simp only [exc_bind_ok]
  rw [readU32_writeU32 hlen]
  simp only [exc_bind_ok]
  rw [base]
  rfl

/-! R1CS assembler lemmas. -/

theorem pushAt_spec {α : Type} (L : List (List α)) :
    ∀ (j : Nat) (a : α), j < L.length →
    ∃ L2, pushAt L j a = some L2 ∧ L2.length = L.length ∧
      ∀ i : Nat, L2.getD i [] =
        if i = j then L.getD i [] ++ [a] else L.getD i [] := by
  induction L with
  | nil => intro j a h; simp at h
  | cons row rows ih =>
    intro j a h
    cases j with
    | zero =>
      refine ⟨(row ++ [a]) :: rows, rfl, by simp, ?_⟩
      intro i
      cases i with
      | zero => simp
      | succ i => simp
    | succ n =>
      have hn : n < rows.length := by simp at h; omega
      obtain ⟨R2, hpush, hlen, hget⟩ := ih n a hn
      refine ⟨row :: R2, ?_, by simp [hlen], ?_⟩
      · show (pushAt rows n a).map (row :: ·) = some (row :: R2)
        rw [hpush]
        rfl
      · intro i
        cases i with
        | zero => simp
        | succ i =>
          simp only [List.getD_cons_succ]
          rw [hget i]
          by_cases hni : i = n
          · subst hni; simp
          · rw [if_neg hni, if_neg (by omega)]

theorem evalLC_spec (E : Engine) (l : LinearCombination E) :
    ∀ (I X : List (List (E.Fr × Nat))) (k : Nat),
    (∀ t ∈ l, idxOk I.length X.length t.1) →
    ∃ I2 X2, evalLC E l I X k = some (I2, X2) ∧
      I2.length = I.length ∧ X2.length = X.length ∧
      (∀ i : Nat, I2.getD i [] = I.getD i [] ++ lcInputEntries E l i k) ∧
      (∀ i : Nat, X2.getD i [] = X.getD i [] ++ lcAuxEntries E l i k) := by
  induction l with
  | nil =>
    intro I X k hr
    exact ⟨I, X, rfl, rfl, rfl, by simp [lcInputEntries], by simp [lcAuxEntries]⟩
  | cons t rest ih =>
    intro I X k hr
    obtain ⟨ix, c⟩ := t
    cases ix with
    | input j =>
      have hj : j < I.length := hr (Index.input j, c) (by simp)
      obtain ⟨I1, hpush, hlen1, hget1⟩ := pushAt_spec I j (c, k) hj
      have hr2 : ∀ t ∈ rest, idxOk I1.length X.length t.1 := by
        rw [hlen1]
        intro t2 ht2
        exact hr t2 (List.mem_cons_of_mem _ ht2)
      obtain ⟨I2, X2, heval, hlen2, hlen3, hget2, hget3⟩ := ih I1 X k hr2
      refine ⟨I2, X2, ?_, by rw [hlen2, hlen1], hlen3, ?_, ?_⟩
      · show (pushAt I j (c, k)).bind _ = some (I2, X2)
        rw [hpush]
        exact heval
      · intro i
        rw [hget2 i, hget1 i]
        by_cases hij : i = j
        · subst hij
          simp [lcInputEntries, List.filterMap_cons, List.append_assoc]
        · have hji : ¬j = i := fun h => hij h.symm
          rw [if_neg hij]
          simp [lcInputEntries, List.filterMap_cons, hji]
      · intro i
        rw [hget3 i]
        simp [lcAuxEntries, List.filterMap_cons]
    | auxiliary j =>
      have hj : j < X.length := hr (Index.auxiliary j, c) (by simp)
      obtain ⟨X1, hpush, hlen1, hget1⟩ := pushAt_spec X j (c, k) hj
      have hr2 : ∀ t ∈ rest, idxOk I.length X1.length t.1 := by
        rw [hlen1]
        intro t2 ht2
        exact hr t2 (List.mem_cons_of_mem _ ht2)
      obtain ⟨I2, X2, heval, hlen2, hlen3, hget2, hget3⟩ := ih I X1 k hr2
      refine ⟨I2, X2, ?_, hlen2, by rw [hlen3, hlen1], ?_, ?_⟩
      · show (pushAt X j (c, k)).bind _ = some (I2, X2)
        rw [hpush]
        exact heval
      · intro i
        rw [hget2 i]
        simp [lcInputEntries, List.filterMap_cons]
      · intro i
        rw [hget3 i, hget1 i]
        by_cases hij : i = j
        · subst hij
          simp [lcAuxEntries, List.filterMap_cons, List.append_assoc]
        · have hji : ¬j = i := fun h => hij h.symm
          rw [if_neg hij]
          simp [lcAuxEntries, List.filterMap_cons, hji]

theorem listeq_of_getD {α : Type} :
    ∀ (L1 L2 : List (List α)), L1.length = L2.length →
      (∀ i : Nat, L1.getD i [] = L2.getD i []) → L1 = L2
  | [], [], _, _ => rfl
  | [], y :: ys, hl, _ => by simp at hl
  | x :: xs, [], hl, _ => by simp at hl
  | x :: xs, y :: ys, hl, h => by
    have h0 := h 0
    simp only [List.getD_cons_zero] at h0
    have hrest : xs = ys :=
      listeq_of_getD xs ys (by simpa using hl)
        (fun i => by have := h (i + 1); simpa using this)
    rw [h0, hrest]

theorem KeypairAssembly.enforce_spec (E : Engine) (A : KeypairAssembly E)
    (la lb lc : LinearCombination E)
    (ha : ∀ t ∈ la, idxOk A.at_inputs.length A.at_aux.length t.1)
    (hb : ∀ t ∈ lb, idxOk A.bt_inputs.length A.bt_aux.length t.1)
    (hc : ∀ t ∈ lc, idxOk A.ct_inputs.length A.ct_aux.length t.1) :
    ∃ A2, KeypairAssembly.enforce E A la lb lc = some A2 ∧
      A2.num_inputs = A.num_inputs ∧ A2.num_aux = A.num_aux ∧
      A2.num_constraints = A.num_constraints + 1 ∧
      A2.at_inputs.length = A.at_inputs.length ∧
      A2.at_aux.length = A.at_aux.length ∧
      A2.bt_inputs.length = A.bt_inputs.length ∧
      A2.bt_aux.length = A.bt_aux.length ∧
      A2.ct_inputs.length = A.ct_inputs.length ∧
      A2.ct_aux.length = A.ct_aux.length ∧
      (∀ i : Nat, A2.at_inputs.getD i [] =
        A.at_inputs.getD i [] ++ lcInputEntries E la i A.num_constraints) ∧
      (∀ i : Nat, A2.at_aux.getD i [] =
        A.at_aux.getD i [] ++ lcAuxEntries E la i A.num_constraints) ∧
      (∀ i : Nat, A2.bt_inputs.getD i [] =
        A.bt_inputs.getD i [] ++ lcInputEntries E lb i A.num_constraints) ∧
      (∀ i : Nat, A2.bt_aux.getD i [] =
        A.bt_aux.getD i [] ++ lcAuxEntries E lb i A.num_constraints) ∧
      (∀ i : Nat, A2.ct_inputs.getD i [] =
        A.ct_inputs.getD i [] ++ lcInputEntries E lc i A.num_constraints) ∧
      (∀ i : Nat, A2.ct_aux.getD i [] =
        A.ct_aux.getD i [] ++ lcAuxEntries E lc i A.num_constraints) := by
  obtain ⟨I2, X2, he1, hl1, hl2, hg1, hg2⟩ :=
    evalLC_spec E la A.at_inputs A.at_aux A.num_constraints ha
  obtain ⟨I3, X3, he2, hl3, hl4, hg3, hg4⟩ :=
    evalLC_spec E lb A.bt_inputs A.bt_aux A.num_constraints hb
  obtain ⟨I4, X4, he3, hl5, hl6, hg5, hg6⟩ :=
    evalLC_spec E lc A.ct_inputs A.ct_aux A.num_constraints hc
  refine ⟨{ A with
      at_inputs := I2, at_aux := X2
      bt_inputs := I3, bt_aux := X3
      ct_inputs := I4, ct_aux := X4
      num_constraints := A.num_constraints + 1 },
    ?_, rfl, rfl, rfl, hl1, hl2, hl3, hl4, hl5, hl6,
    hg1, hg2, hg3, hg4, hg5, hg6⟩
  simp [KeypairAssembly.enforce, he1, he2, he3]

theorem inputConstraintsGo_cons (E : Engine) (x : Nat) (xs : List Nat)
    (A : KeypairAssembly E) :
    inputConstraintsGo E (x :: xs) A =
      match inputConstraintStep E x A with
      | some A1 => inputConstraintsGo E xs A1
      | none => none := rfl

theorem inputConstraintsGo_append (E : Engine) (xs ys : List Nat)
    (A : KeypairAssembly E) :
    inputConstraintsGo E (xs ++ ys) A =
      (inputConstraintsGo E xs A).bind (inputConstraintsGo E ys) := by
  induction xs generalizing A with
  | nil => rfl
  | cons x xs ih =>
    rw [List.cons_append, inputConstraintsGo_cons, inputConstraintsGo_cons]
    cases h : inputConstraintStep E x A with
    | some A1 => exact ih A1
    | none => rfl

theorem inputConstraintsGo_range_spec (E : Engine) (A : KeypairAssembly E)
    (hlen : A.at_inputs.length = A.num_inputs) :
    ∀ n, n ≤ A.num_inputs →
    ∃ A2, inputConstraintsGo E (List.range n) A = some A2 ∧
      A2.num_inputs = A.num_inputs ∧ A2.num_aux = A.num_aux ∧
      A2.num_constraints = A.num_constraints + n ∧
      A2.at_inputs.length = A.at_inputs.length ∧
      (∀ i : Nat, i < n → A2.at_inputs.getD i [] =
        A.at_inputs.getD i [] ++ [(E.frOne, A.num_constraints + i)]) ∧
      (∀ i : Nat, n ≤ i → A2.at_inputs.getD i [] = A.at_inputs.getD i []) ∧
      A2.bt_inputs = A.bt_inputs ∧ A2.ct_inputs = A.ct_inputs ∧
      A2.at_aux = A.at_aux ∧ A2.bt_aux = A.bt_aux ∧ A2.ct_aux = A.ct_aux := by
  intro n
  induction n with
  | zero =>
    intro hn
    exact ⟨A, rfl, rfl, rfl, rfl, rfl, by omega, fun i hi => rfl,
      rfl, rfl, rfl, rfl, rfl⟩
  | succ n ih =>
    intro hn
    obtain ⟨A2, hgo, e1, e2, e3, e4, e5, e6, e7, e8, e9, e10, e11⟩ :=
      ih (by omega)
    have hr : ∀ t ∈ ([(Index.input n, E.frOne)] : LinearCombination E),
        idxOk A2.at_inputs.length A2.at_aux.length t.1 := by
      intro t ht
      simp at ht
      subst ht
      show n < A2.at_inputs.length
      omega
    obtain ⟨A3, hstep, f1, f2, f3, f4, f5, f6, f7, f8, f9, f10, f11, f12,
        f13, f14, f15⟩ :=
      KeypairAssembly.enforce_spec E A2 [(Index.input n, E.frOne)] [] [] hr
        (by intro t ht; simp at ht) (by intro t ht; simp at ht)
    refine ⟨A3, ?_, by omega, by omega, by omega, by omega, ?_, ?_, ?_, ?_,
      ?_, ?_, ?_⟩
    · rw [List.range_succ, inputConstraintsGo_append, hgo]
      show inputConstraintsGo E [n] A2 = some A3
      show (match inputConstraintStep E n A2 with
        | some A1 => inputConstraintsGo E [] A1
        | none => none) = some A3
      unfold inputConstraintStep
      rw [hstep]
      rfl
    · intro i hi
      rw [f10 i, e3]
      by_cases hin : i = n
      · subst hin
        rw [e6 i (by omega)]
        simp [lcInputEntries]
      · have h2 : i < n := by omega
        rw [e5 i h2]
        have hni : ¬n = i := fun h => hin h.symm
        simp [lcInputEntries, hni]
    · intro i hi
      rw [f10 i, e6 i (by omega)]
      have hni : ¬n = i := by omega
      simp [lcInputEntries, hni]
    · rw [← e7]
      exact listeq_of_getD _ _ f6 (fun i => by rw [f12 i]; simp [lcInputEntries])
    · rw [← e8]
      exact listeq_of_getD _ _ f8 (fun i => by rw [f14 i]; simp [lcInputEntries])
    · rw [← e9]
      exact listeq_of_getD _ _ f5 (fun i => by rw [f11 i]; simp [lcAuxEntries])
    · rw [← e10]
      exact listeq_of_getD _ _ f7 (fun i => by rw [f13 i]; simp [lcAuxEntries])
    · rw [← e11]
      exact listeq_of_getD _ _ f9 (fun i => by rw [f15 i]; simp [lcAuxEntries])

/-! Multi-exponentiation as an indexed sum (for the powers-of-tau check). -/

theorem sumR_congr {G : Type} (add : G → G → G) (zero : G) (f g : Nat → G) :
    ∀ n, (∀ i, 1 ≤ i → i ≤ n → f i = g i) →
      sumR add zero f n = sumR add zero g n := by
  intro n
  induction n with
  | zero => intro h; rfl
  | succ n ih =>
    intro h
    show add (sumR add zero f n) (f (n + 1)) = add (sumR add zero g n) (g (n + 1))
    rw [ih (fun i h1 h2 => h i h1 (by omega)), h (n + 1) (by omega) (by omega)]

theorem multiexpGo_full {G F : Type} (add : G → G → G) (smul : F → G → G) :
    ∀ (ss : List F) (bs : List G) (n : Nat) (acc : G), ss.length ≤ n →
      multiexpGo add smul bs (List.replicate n true) ss acc =
        (List.zipWith smul ss bs).foldl add acc := by
  intro ss
  induction ss with
  | nil =>
    intro bs n acc h
    cases n with
    | zero => rfl
    | succ n => rfl
  | cons s ss ih =>
    intro bs n acc h
    cases n with
    | zero => simp at h
    | succ n =>
      cases bs with
      | nil => rfl
      | cons b bs =>
        show multiexpGo add smul bs (List.replicate n true) ss (add acc (smul s b)) = _
        rw [ih bs n (add acc (smul s b)) (by simpa using h)]
        rfl

theorem foldl_eq_sumR {G : Type} (add : G → G → G) (zero : G) (l : List G) :
    l.foldl add zero = sumR add zero (fun i => l.getD (i - 1) zero) l.length := by
  induction l using List.reverseRecOn with
  | nil => rfl
  | append_singleton l x ih =>
    rw [List.foldl_append]
    show add (l.foldl add zero) x = _
    rw [ih]
    have hlen : (l ++ [x]).length = l.length + 1 := by simp
    rw [hlen]
    show _ = add (sumR add zero _ l.length) ((l ++ [x]).getD (l.length + 1 - 1) zero)
    have h1 : (l ++ [x]).getD (l.length + 1 - 1) zero = x := by
      simp [List.getD_eq_getElem?_getD, List.getElem?_append_right]
    rw [h1]
    have h2 : sumR add zero (fun i => l.getD (i - 1) zero) l.length =
        sumR add zero (fun i => (l ++ [x]).getD (i - 1) zero) l.length := by
      apply sumR_congr
      intro i h1i h2i
      have : i - 1 < l.length := by omega
      simp [List.getD_eq_getElem?_getD, List.getElem?_append_left this]
    rw [h2]

theorem getD_zipWith {α β γ : Type} (f : α → β → γ) :
    ∀ (as : List α) (bs : List β) (i : Nat) (d : γ) (da : α) (db : β),
      i < as.length → i < bs.length →
      (List.zipWith f as bs).getD i d = f (as.getD i da) (bs.getD i db) := by
  intro as
  induction as with
  | nil => intro bs i d da db h1 h2; simp at h1
  | cons a as ih =>
    intro bs i d da db h1 h2
    cases bs with
    | nil => simp at h2
    | cons b bs =>
      cases i with
      | zero => rfl
      | succ i =>
        show (List.zipWith f as bs).getD i d = _
        exact ih bs i d da db (by simpa using h1) (by simpa using h2)

theorem zipWith_map_same {α β γ δ : Type} (f : β → γ → δ) (g1 : α → β)
    (g2 : α → γ) (l : List α) :
    List.zipWith f (l.map g1) (l.map g2) = l.map (fun x => f (g1 x) (g2 x)) := by
  induction l with
  | nil => rfl
  | cons x l ih => simp [ih]

theorem getD_range_map {α : Type} (g : Nat → α) (d n : Nat) (dflt : α)
    (h : n < d) : ((List.range d).map g).getD n dflt = g n := by
  simp [List.getD_eq_getElem?_getD, List.getElem?_range h]

theorem getD_drop {α : Type} (l : List α) (k n : Nat) (d : α) :
    (l.drop k).getD n d = l.getD (k + n) d := by
  simp [List.getD_eq_getElem?_getD, List.getElem?_drop]

theorem getD_take {α : Type} (l : List α) (k n : Nat) (d : α) (h : n < k) :
    (l.take k).getD n d = l.getD n d := by
  simp [List.getD_eq_getElem?_getD, List.getElem?_take_of_lt h]

theorem multiexp_range_sumR {G F : Type} (add : G → G → G) (smul : F → G → G)
    (zero : G) (dF : F) (bs : List G) (g : Nat → F) (d : Nat)
    (hbs : d ≤ bs.length) :
    multiexp add smul zero bs (fullDensity ((List.range d).map g).length)
      ((List.range d).map g) =
      sumR add zero (fun i => smul (g (i - 1)) (bs.getD (i - 1) zero)) d := by
  unfold multiexp fullDensity
  rw [multiexpGo_full add smul _ bs _ zero (by rfl)]
  rw [foldl_eq_sumR]
  have hlen : (List.zipWith smul ((List.range d).map g) bs).length = d := by
    simp
    omega
  rw [hlen]
  apply sumR_congr
  intro i h1 h2
  rw [getD_zipWith smul _ bs (i - 1) zero dF zero (by simp; omega) (by omega)]
  rw [getD_range_map g d (i - 1) dF (by omega)]

theorem getElem?_eq_some_getD {α : Type} (l : List α) (n : Nat) (z : α)
    (h : n < l.length) : l[n]? = some (l.getD n z) := by
  rw [List.getElem?_eq_getElem h]
  rw [List.getD_eq_getElem?_getD, List.getElem?_eq_getElem h]
  rfl

theorem checkTau_spec (E : Engine) (ep : ExtendedParameters E) (d : Nat)
    (rng : Nat → E.Fr) (off : Nat) (hP : PairingLaws E)
    (hl1 : ep.taus_g1.length = d + 1) (hl2 : ep.taus_g2.length = d + 1)
    (hd : 1 ≤ d) :
    checkTau E ep d rng off =
      if E.fqkBeq (tauCheckSpecProduct E ep d rng off) E.fqkOne then .ok ()
      else .err .malformedCrs := by
  obtain ⟨lone, lfe, lfeone⟩ := hP
  have pairlem : ∀ (a : E.G1) (b : E.G2),
      E.finalExp (E.miller a b) = Engine.pair E a b := by
    intro a b
    unfold Engine.pair millerLoop
    show E.finalExp (E.miller a b) = E.finalExp (E.fqkMul E.fqkOne (E.miller a b))
    rw [lone]
  have hpq : List.zipWith E.frAdd
      ((List.range d).map fun i => rng (off + i))
      ((List.range d).map fun i => rng (off + d + i)) =
      (List.range d).map fun i => E.frAdd (rng (off + i)) (rng (off + d + i)) :=
    zipWith_map_same E.frAdd _ _ (List.range d)
  have hPQ : multiexp E.g1Add E.g1Smul E.g1Zero (ep.taus_g1.drop 1)
      (fullDensity (((List.range d).map fun i =>
        E.frAdd (rng (off + i)) (rng (off + d + i))).length))
      ((List.range d).map fun i => E.frAdd (rng (off + i)) (rng (off + d + i))) =
      sumR E.g1Add E.g1Zero (fun i =>
        E.g1Smul (E.frAdd (rng (off + (i - 1))) (rng (off + d + (i - 1))))
          (ep.taus_g1.getD i E.g1Zero)) d := by
    rw [multiexp_range_sumR E.g1Add E.g1Smul E.g1Zero E.frZero _ _ d
      (by simp [hl1])]
    apply sumR_congr
    intro i h1 h2
    rw [getD_drop]
    have h3 : 1 + (i - 1) = i := by omega
    rw [h3]
  have hPs : multiexp E.g1Add E.g1Smul E.g1Zero (ep.taus_g1.take d)
      (fullDensity (((List.range d).map fun i => rng (off + i)).length))
      ((List.range d).map fun i => rng (off + i)) =
      sumR E.g1Add E.g1Zero (fun i =>
        E.g1Smul (rng (off + (i - 1))) (ep.taus_g1.getD (i - 1) E.g1Zero)) d := by
    rw [multiexp_range_sumR E.g1Add E.g1Smul E.g1Zero E.frZero _ _ d
      (by simp [hl1])]
    apply sumR_congr
    intro i h1 h2
    rw [getD_take _ _ _ _ (by omega)]
  have hQs : multiexp E.g2Add E.g2Smul E.g2Zero (ep.taus_g2.drop 1)
      (fullDensity (((List.range d).map fun i => rng (off + d + i)).length))
      ((List.range d).map fun i => rng (off + d + i)) =
      sumR E.g2Add E.g2Zero (fun i =>
        E.g2Smul (rng (off + d + (i - 1))) (ep.taus_g2.getD i E.g2Zero)) d := by
    rw [multiexp_range_sumR E.g2Add E.g2Smul E.g2Zero E.frZero _ _ d
      (by simp [hl2])]
    apply sumR_congr
    intro i h1 h2
    rw [getD_drop]
    have h3 : 1 + (i - 1) = i := by omega
    rw [h3]
  unfold checkTau
  rw [idx_of_getElem (getElem?_eq_some_getD ep.taus_g1 0 E.g1Zero (by omega))]
  rw [idx_of_getElem (getElem?_eq_some_getD ep.taus_g2 0 E.g2Zero (by omega))]
  rw [idx_of_getElem (getElem?_eq_some_getD ep.taus_g2 1 E.g2Zero (by omega))]
  simp only [PR.monad_bind_eq, PR.bind_ok_left]
  rw [hpq, hPQ, hPs, hQs]
  show guardCrs (E.fqkBeq (E.finalExp (millerLoop E _)) E.fqkOne) = _
  unfold millerLoop
  show guardCrs (E.fqkBeq (E.finalExp (E.fqkMul (E.fqkMul (E.fqkMul E.fqkOne
    (E.miller _ _)) (E.miller _ _)) (E.miller _ _))) E.fqkOne) = _
  rw [lone, lfe, lfe, pairlem, pairlem, pairlem]
  rfl

/-! Control-flow lemmas for the audit protocol. -/

theorem idx_of_none {α : Type} {xs : List α} {i : Nat}
    (h : xs[i]? = none) : idx xs i = .panicked := by
  unfold idx
  rw [h]

/-- Normal form of the non-degeneracy block: the seven identity tests in
source order, with the `h[0]` indexing panic in between.  `beta_g2` and
`delta_g2` are tested nowhere in it. -/
theorem checkNonDeg_eq (E : Engine) (ep : ExtendedParameters E)
    (g1 : E.G1) (g2 : E.G2) :
    checkNonDeg E ep g1 g2 =
      (if E.g1Beq g1 E.g1Zero then .err .malformedCrs
       else if E.g2Beq g2 E.g2Zero then .err .malformedCrs
       else if E.g1Beq ep.params.vk.alpha_g1 E.g1Zero then .err .malformedCrs
       else if E.g1Beq ep.params.vk.beta_g1 E.g1Zero then .err .malformedCrs
       else if E.g2Beq ep.params.vk.gamma_g2 E.g2Zero then .err .malformedCrs
       else if E.g1Beq ep.params.vk.delta_g1 E.g1Zero then .err .malformedCrs
       else match ep.params.h[0]? with
         | none => .panicked
         | some h0 =>
           if E.g1Beq h0 E.g1Zero then .err .malformedCrs else .ok ()) := by
  unfold checkNonDeg
  simp only [PR.monad_bind_eq, PR.bind_guard]
  cases hb1 : E.g1Beq g1 E.g1Zero <;> simp [hb1]
  cases hb2 : E.g2Beq g2 E.g2Zero <;> simp [hb2]
  cases hb3 : E.g1Beq ep.params.vk.alpha_g1 E.g1Zero <;> simp [hb3]
  cases hb4 : E.g1Beq ep.params.vk.beta_g1 E.g1Zero <;> simp [hb4]
  cases hb5 : E.g2Beq ep.params.vk.gamma_g2 E.g2Zero <;> simp [hb5]
  cases hb6 : E.g1Beq ep.params.vk.delta_g1 E.g1Zero <;> simp [hb6]
  cases hh : ep.params.h[0]? with
  | none =>
    rw [idx_of_none hh]
    rfl
  | some h0 =>
    rw [idx_of_getElem hh]
    simp only [PR.bind_ok_left, PR.bind_guard]
    cases hb7 : E.g1Beq h0 E.g1Zero <;> simp [hb7, guardCrs]

theorem checkNonDeg_ok_iff (E : Engine) (ep : ExtendedParameters E)
    (g1 : E.G1) (g2 : E.G2) :
    checkNonDeg E ep g1 g2 = .ok () ↔
      (E.g1Beq g1 E.g1Zero = false ∧ E.g2Beq g2 E.g2Zero = false ∧
       E.g1Beq ep.params.vk.alpha_g1 E.g1Zero = false ∧
       E.g1Beq ep.params.vk.beta_g1 E.g1Zero = false ∧
       E.g2Beq ep.params.vk.gamma_g2 E.g2Zero = false ∧
       E.g1Beq ep.params.vk.delta_g1 E.g1Zero = false ∧
       ∃ h0, ep.params.h[0]? = some h0 ∧ E.g1Beq h0 E.g1Zero = false) := by
  rw [checkNonDeg_eq]
  cases hb1 : E.g1Beq g1 E.g1Zero <;> simp only [hb1, if_true, if_false] <;>
    try simp
  cases hb2 : E.g2Beq g2 E.g2Zero <;> simp only [hb2, if_true, if_false] <;>
    try simp
  cases hb3 : E.g1Beq ep.params.vk.alpha_g1 E.g1Zero <;>
    simp only [hb3, if_true, if_false] <;> try simp
  cases hb4 : E.g1Beq ep.params.vk.beta_g1 E.g1Zero <;>
    simp only [hb4, if_true, if_false] <;> try simp
  cases hb5 : E.g2Beq ep.params.vk.gamma_g2 E.g2Zero <;>
    simp only [hb5, if_true, if_false] <;> try simp
  cases hb6 : E.g1Beq ep.params.vk.delta_g1 E.g1Zero <;>
    simp only [hb6, if_true, if_false] <;> try simp
  cases hh : ep.params.h[0]? with
  | none => simp
  | some h0 =>
    cases hb7 : E.g1Beq h0 E.g1Zero <;> simp [hb7]

theorem checkNonDeg_err_of (E : Engine) (ep : ExtendedParameters E)
    (g1 : E.G1) (g2 : E.G2)
    (disj : E.g1Beq g1 E.g1Zero = true ∨ E.g2Beq g2 E.g2Zero = true ∨
      E.g1Beq ep.params.vk.alpha_g1 E.g1Zero = true ∨
      E.g1Beq ep.params.vk.beta_g1 E.g1Zero = true ∨
      E.g2Beq ep.params.vk.gamma_g2 E.g2Zero = true ∨
      E.g1Beq ep.params.vk.delta_g1 E.g1Zero = true ∨
      (∃ h0, ep.params.h[0]? = some h0 ∧ E.g1Beq h0 E.g1Zero = true)) :
    checkNonDeg E ep g1 g2 = .err .malformedCrs := by
  rw [checkNonDeg_eq]
  cases hb1 : E.g1Beq g1 E.g1Zero
  case true => simp [hb1]
  rw [hb1] at disj
  simp only [hb1, Bool.false_eq_true, if_false]
  cases hb2 : E.g2Beq g2 E.g2Zero
  case true => simp [hb2]
  rw [hb2] at disj
  simp only [hb2, Bool.false_eq_true, if_false]
  cases hb3 : E.g1Beq ep.params.vk.alpha_g1 E.g1Zero
  case true => simp [hb3]
  rw [hb3] at disj
  simp only [hb3, Bool.false_eq_true, if_false]
  cases hb4 : E.g1Beq ep.params.vk.beta_g1 E.g1Zero
  case true => simp [hb4]
  rw [hb4] at disj
  simp only [hb4, Bool.false_eq_true, if_false]
  cases hb5 : E.g2Beq ep.params.vk.gamma_g2 E.g2Zero
  case true => simp [hb5]
  rw [hb5] at disj
  simp only [hb5, Bool.false_eq_true, if_false]
  cases hb6 : E.g1Beq ep.params.vk.delta_g1 E.g1Zero
  case true => simp [hb6]
  rw [hb6] at disj
  simp only [hb6, Bool.false_eq_true, if_false]
  simp only [Bool.false_eq_true, false_or] at disj
  obtain ⟨h0, hh, hb7⟩ := disj
  rw [hh]
  simp [hb7]

/-- `verify` is the short-circuiting sequence of its blocks in SOURCE order
(H-query before powers-of-tau), once the initial length assertion and the
two generator reads succeed. -/
theorem verify_chain (E : Engine) (ep : ExtendedParameters E)
    (circuit : List (CircuitOp E)) (rng : Nat → E.Fr)
    (hlen : ep.taus_g1.length = ep.taus_g2.length)
    {g1v : E.G1} {g2v : E.G2}
    (h1 : ep.taus_g1[0]? = some g1v) (h2 : ep.taus_g2[0]? = some g2v) :
    ExtendedParameters.verify E ep circuit rng =
      PR.bind (checkNonDeg E ep g1v g2v) (fun _ =>
      PR.bind (checkCross E ep g1v g2v) (fun _ =>
      PR.bind (checkH E ep (prepareVerifyingKey E ep.params.vk) g1v
        (ep.taus_g1.length - 1) rng 0) (fun _ =>
      PR.bind (checkTau E ep (ep.taus_g1.length - 1) rng
        (ep.taus_g1.length - 1)) (fun _ =>
      PR.bind (synthAssembly E circuit) (fun A =>
      PR.bind (qapEval E ep A) (fun qa =>
      PR.bind (checkQap E ep (prepareVerifyingKey E ep.params.vk) g2v qa rng
        (3 * (ep.taus_g1.length - 1))) (fun _ =>
      checkStruct E ep qa))))))) := by
  unfold ExtendedParameters.verify
  have hbeq : (ep.taus_g1.length == ep.taus_g2.length) = true := by
    simp [hlen]
  rw [idx_of_getElem h1, idx_of_getElem h2]
  simp only [PR.monad_bind_eq, hbeq, assertB_true, PR.bind_ok_left]

/-- The same chain for the spec-claimed-order variant. -/
theorem verifySpecClaimedOrder_chain (E : Engine) (ep : ExtendedParameters E)
    (circuit : List (CircuitOp E)) (rng : Nat → E.Fr)
    (hlen : ep.taus_g1.length = ep.taus_g2.length)
    {g1v : E.G1} {g2v : E.G2}
    (h1 : ep.taus_g1[0]? = some g1v) (h2 : ep.taus_g2[0]? = some g2v) :
    verifySpecClaimedOrder E ep circuit rng =
      PR.bind (checkNonDeg E ep g1v g2v) (fun _ =>
      PR.bind (checkCross E ep g1v g2v) (fun _ =>
      PR.bind (checkTau E ep (ep.taus_g1.length - 1) rng 0) (fun _ =>
      PR.bind (checkH E ep (prepareVerifyingKey E ep.params.vk) g1v
        (ep.taus_g1.length - 1) rng (2 * (ep.taus_g1.length - 1))) (fun _ =>
      PR.bind (synthAssembly E circuit) (fun A =>
      PR.bind (qapEval E ep A) (fun qa =>
      PR.bind (checkQap E ep (prepareVerifyingKey E ep.params.vk) g2v qa rng
        (3 * (ep.taus_g1.length - 1))) (fun _ =>
      checkStruct E ep qa))))))) := by
  unfold verifySpecClaimedOrder
  have hbeq : (ep.taus_g1.length == ep.taus_g2.length) = true := by
    simp [hlen]
  rw [idx_of_getElem h1, idx_of_getElem h2]
  simp only [PR.monad_bind_eq, hbeq, assertB_true, PR.bind_ok_left]

theorem verify_panic_of_length_mismatch (E : Engine)
    (ep : ExtendedParameters E) (circuit : List (CircuitOp E))
    (rng : Nat → E.Fr) (h : ep.taus_g1.length ≠ ep.taus_g2.length) :
    ExtendedParameters.verify E ep circuit rng = .panicked := by
  unfold ExtendedParameters.verify
  have hbeq : (ep.taus_g1.length == ep.taus_g2.length) = false := by
    simp [h]
  simp only [PR.monad_bind_eq, hbeq, assertB_false, PR.bind_panicked_left]

theorem verify_panic_of_empty (E : Engine) (ep : ExtendedParameters E)
    (circuit : List (CircuitOp E)) (rng : Nat → E.Fr)
    (hlen : ep.taus_g1.length = ep.taus_g2.length)
    (he : ep.taus_g1 = []) :
    ExtendedParameters.verify E ep circuit rng = .panicked := by
  unfold ExtendedParameters.verify
  have hbeq : (ep.taus_g1.length == ep.taus_g2.length) = true := by
    simp [hlen]
  simp only [PR.monad_bind_eq, hbeq, assertB_true, PR.bind_ok_left]
  simp only [he, idx_nil, PR.bind_panicked_left]

theorem checkH_ok_hlen {E : Engine} {ep : ExtendedParameters E}
    {pvk : PreparedVerifyingKey E} {g1 : E.G1} {d : Nat} {rng : Nat → E.Fr}
    {off : Nat} (h : checkH E ep pvk g1 d rng off = .ok ()) :
    ep.params.h.length = d := by
  unfold checkH at h
  simp only [PR.monad_bind_eq] at h
  rw [PR.bind_eq_ok] at h
  obtain ⟨u, ha, -⟩ := h
  cases u
  rw [assertB_eq_ok] at ha
  simpa using ha

theorem checkQap_ok_llen {E : Engine} {ep : ExtendedParameters E}
    {pvk : PreparedVerifyingKey E} {g2 : E.G2} {qa : QapArrays E}
    {rng : Nat → E.Fr} {off : Nat}
    (h : checkQap E ep pvk g2 qa rng off = .ok ()) :
    ep.params.l.length = qa.num_aux := by
  unfold checkQap at h
  simp only [PR.monad_bind_eq] at h
  rw [PR.bind_eq_ok] at h
  obtain ⟨u, ha, -⟩ := h
  cases u
  rw [assertB_eq_ok] at ha
  simpa using ha

theorem qapEval_ok_counts {E : Engine} {ep : ExtendedParameters E}
    {A : KeypairAssembly E} {qa : QapArrays E}
    (h : qapEval E ep A = .ok qa) :
    qa.num_inputs = A.num_inputs ∧ qa.num_aux = A.num_aux := by
  unfold qapEval at h
  simp only [PR.monad_bind_eq] at h
  rw [PR.bind_eq_ok] at h
  obtain ⟨u1, -, h⟩ := h
  rw [PR.bind_eq_ok] at h
  obtain ⟨u2, -, h⟩ := h
  rw [PR.bind_eq_ok] at h
  obtain ⟨u3, -, h⟩ := h
  rw [PR.bind_eq_ok] at h
  obtain ⟨r1, -, h⟩ := h
  rw [PR.bind_eq_ok] at h
  obtain ⟨r2, -, h⟩ := h
  rw [PR.bind_eq_ok] at h
  obtain ⟨r3, -, h⟩ := h
  rw [PR.bind_eq_ok] at h
  obtain ⟨r4, -, h⟩ := h
  cases h
  exact ⟨rfl, rfl⟩

/-! Claim theorems. -/

/-- C2 (counterexample): a byte stream whose `alpha_g1` chunk decodes to the
group identity is accepted by `VerifyingKey::read`, refuting the claim that
decoding fails whenever any of the six fixed elements decodes to the
identity. -/
theorem c2_counterexample :
    VerifyingKey.read toyE ([0, 1, 1, 1, 1, 1] ++ [0, 0, 0, 1] ++ [4]) =
      .ok (⟨z5 0, z5 1, z5 1, z5 1, z5 1, z5 1, [z5 4]⟩, []) ∧
    toyE.g1Beq (z5 0) toyE.g1Zero = true := by
  exact ⟨by decide, by decide⟩

/-- C2 (amended): `VerifyingKey::read` rejects the identity only among the
`ic` entries — it returns `Ok` only if no decoded `ic` element is the
identity, an identity `ic` entry yields `InvalidData`, and the six fixed
elements are not identity-checked at all (an encoding with identity fixed
elements but identity-free `ic` round-trips successfully). -/
theorem c2_amended : ∀ (E : Engine),
    (∀ (s : List Nat) (vk : VerifyingKey E) (r : List Nat),
      VerifyingKey.read E s = .ok (vk, r) →
      ∀ g ∈ vk.ic, E.g1Beq g E.g1Zero = false) ∧
    (LawfulCodec E → ∀ vk : VerifyingKey E, vk.ic.length < 4294967296 →
      ((∀ g ∈ vk.ic, E.g1Beq g E.g1Zero = false) →
        VerifyingKey.read E (VerifyingKey.write E vk) = .ok (vk, [])) ∧
      ((∃ g ∈ vk.ic, E.g1Beq g E.g1Zero = true) →
        VerifyingKey.read E (VerifyingKey.write E vk) =
          .error (.invalidData "point at infinity"))) := by
  intro E
  refine ⟨fun s vk r h => VerifyingKey.read_ok_ic_nonId h, fun hC vk hlen => ⟨?_, ?_⟩⟩
  · intro hic
    have h := vk_read_write hC vk hlen hic []
    rwa [List.append_nil] at h
  · intro hid
    exact vk_read_write_id hC vk hlen hid

/-- C2 (witness). -/
theorem c2_amended_witness :
    LawfulCodec toyE ∧ toyVk.ic.length < 4294967296 ∧
    VerifyingKey.read toyE (VerifyingKey.write toyE toyVk) = .ok (toyVk, []) :=
  ⟨by decide, by decide,
    ((c2_amended toyE).2 (by decide) toyVk (by decide)).1 (by decide)⟩

/-- C3 (counterexample): a stream whose first chunk decodes to a valid group
element — the identity — makes `Proof::read` fail with `InvalidData`,
refuting the claim that decoding a Proof succeeds for any valid group
elements including encodings of the identity. -/
theorem c3_counterexample :
    Proof.read toyE [0, 1, 1] = .error (.invalidData "point at infinity") ∧
    toyE.g1FromC [0] = some toyE.g1Zero := by
  exact ⟨by decide, by decide⟩

/-- C3 (amended): `Proof::read` fails when the bytes do not decode to a
valid curve point or the stream is truncated, AND ALSO when a decoded
element is the group identity: it returns `Ok` only for non-identity
elements, an identity element yields `InvalidData "point at infinity"`, and
a truncated stream yields an EOF error. -/
theorem c3_amended : ∀ (E : Engine),
    (∀ (s : List Nat) (p : Proof E) (r : List Nat),
      Proof.read E s = .ok (p, r) →
      E.g1Beq p.a E.g1Zero = false ∧ E.g2Beq p.b E.g2Zero = false ∧
      E.g1Beq p.c E.g1Zero = false) ∧
    (∀ s : List Nat, s.length < E.g1CSize →
      Proof.read E s = .error .unexpectedEof) ∧
    (LawfulCodec E → ∀ p : Proof E,
      (ProofValid E p → Proof.read E (Proof.write E p) = .ok (p, [])) ∧
      ((E.g1Beq p.a E.g1Zero = true ∨ E.g2Beq p.b E.g2Zero = true ∨
        E.g1Beq p.c E.g1Zero = true) →
        Proof.read E (Proof.write E p) =
          .error (.invalidData "point at infinity"))) := by
  intro E
  refine ⟨fun s p r h => Proof.read_ok_nonId h,
    fun s h => Proof.read_truncated h, fun hC p => ⟨?_, ?_⟩⟩
  · intro hv
    have h := proof_read_write hC p hv []
    rwa [List.append_nil] at h
  · intro hid
    exact proof_read_write_id hC p hid

/-- C3 (witness). -/
theorem c3_amended_witness :
    LawfulCodec toyE ∧ ProofValid toyE ⟨z5 1, z5 2, z5 3⟩ ∧
    Proof.read toyE (Proof.write toyE ⟨z5 1, z5 2, z5 3⟩) =
      .ok (⟨z5 1, z5 2, z5 3⟩, []) :=
  ⟨by decide, by decide,
    ((c3_amended toyE).2.2 (by decide) ⟨z5 1, z5 2, z5 3⟩).1 (by decide)⟩

/-- C7 (counterexample): a `Proof` whose `b` element is the group identity —
a legitimate group element, and a valid `Proof` by the spec's data model —
does not round-trip: decoding its encoding fails instead of returning the
value. -/
theorem c7_counterexample :
    Proof.read toyE (Proof.write toyE ⟨z5 1, z5 0, z5 3⟩) =
      .error (.invalidData "point at infinity") := by
  decide

/-- C7 (amended): the write-read round trip holds for `Proof`,
`Parameters` and `ExtendedParameters` — for `Parameters` and
`ExtendedParameters` under both `checked` modes — provided every element on
which the decoder enforces the no-identity rule is not the identity: the
three `Proof` fields `a`, `b`, `c`, every entry of the vk's `ic`, every
entry of the `h`, `l`, `a`, `b_g1`, `b_g2` arrays, and every entry of
`taus_g1`/`taus_g2` (all read through the identity-rejecting `read_g1`/
`read_g2` helpers), and every array length fits the u32 length prefix. -/
theorem c7_amended : ∀ (E : Engine), LawfulCodec E →
    ∀ (p : Proof E) (ps : Parameters E) (ep : ExtendedParameters E),
    ProofValid E p → ParamsValid E ps → ExtParamsValid E ep →
    Proof.read E (Proof.write E p) = .ok (p, []) ∧
    Parameters.read E true (Parameters.write E ps) = .ok (ps, []) ∧
    Parameters.read E false (Parameters.write E ps) = .ok (ps, []) ∧
    ExtendedParameters.read E true (ExtendedParameters.write E ep) =
      .ok (ep, []) ∧
    ExtendedParameters.read E false (ExtendedParameters.write E ep) =
      .ok (ep, []) := by
  intro E hC p ps ep hp hps hep
  refine ⟨?_, ?_, ?_, ?_, ?_⟩
  · have h := proof_read_write hC p hp []
    rwa [List.append_nil] at h
  · have h := params_read_write hC true ps hps []
    rwa [List.append_nil] at h
  · have h := params_read_write hC false ps hps []
    rwa [List.append_nil] at h
  · have h := Extendedparams_read_write hC true ep hep []
    rwa [List.append_nil] at h
  · have h := Extendedparams_read_write hC false ep hep []
    rwa [List.append_nil] at h

/-- C7 (witness). -/
theorem c7_amended_witness :
    LawfulCodec toyE ∧ ProofValid toyE ⟨z5 2, z5 3, z5 4⟩ ∧
    ParamsValid toyE toyParamsHonest ∧ ExtParamsValid toyE toyEpHonest ∧
    ExtendedParameters.read toyE true
      (ExtendedParameters.write toyE toyEpHonest) = .ok (toyEpHonest, []) :=
  ⟨by decide, by decide, by decide, by decide,
    (c7_amended toyE (by decide) ⟨z5 2, z5 3, z5 4⟩ toyParamsHonest toyEpHonest
      (by decide) (by decide) (by decide)).2.2.2.1⟩

/-- C1: the first five audit checks of a well-formed toy CRS succeed and
`verify` returns `Ok`; tampering ONLY with the stored `a` array — which
feeds nothing but the final structural-equality step — makes `verify`
PANIC (the structural step is three `assert_eq!`s) instead of returning
`Err(MalformedCrs)` as the spec requires.  This exhibits the code bug at
the concrete failing input `toyEpBadA`. -/
theorem c1_structural_check_panics :
    ExtendedParameters.verify toyE toyEpHonest [] rngOne = .ok () ∧
    ExtendedParameters.verify toyE toyEpBadA [] rngOne = .panicked ∧
    toyEpBadA = { toyEpHonest with
      params := { toyEpHonest.params with a := [z5 3] } } := by
  exact ⟨by decide, by decide, by decide⟩

/-- C4 (counterexample): the source performs the H-query check BEFORE the
powers-of-tau check; with a CRS whose `h[0]` is tampered and a random
stream whose first draw is zero, the source order accepts while the spec's
claimed order (powers-of-tau first, hence different random scalars for
each check) rejects — so `verify` does not perform the checks in the
spec's order. -/
theorem c4_counterexample :
    ExtendedParameters.verify toyE toyEpTamperH [] rngZeroFirst = .ok () ∧
    verifySpecClaimedOrder toyE toyEpTamperH [] rngZeroFirst =
      .err .malformedCrs := by
  exact ⟨by decide, by decide⟩

/-- C4 (amended): once the initial length assertion and generator reads
succeed, `verify` runs its checks in SOURCE order — non-degeneracy,
cross-group consistency, H-query validation (randomness positions `0..d`),
powers-of-tau validation (positions `d..3d`), synthesis + QAP evaluation,
circuit validation (positions `3d..`), structural equality — and the first
check that fails short-circuits everything after it. -/
theorem c4_amended : ∀ (E : Engine) (ep : ExtendedParameters E)
    (circuit : List (CircuitOp E)) (rng : Nat → E.Fr)
    (g1v : E.G1) (g2v : E.G2),
    ep.taus_g1.length = ep.taus_g2.length →
    ep.taus_g1[0]? = some g1v → ep.taus_g2[0]? = some g2v →
    (∀ e, checkNonDeg E ep g1v g2v = .err e →
      ExtendedParameters.verify E ep circuit rng = .err e) ∧
    (checkNonDeg E ep g1v g2v = .ok () →
      ∀ e, checkCross E ep g1v g2v = .err e →
      ExtendedParameters.verify E ep circuit rng = .err e) ∧
    (checkNonDeg E ep g1v g2v = .ok () → checkCross E ep g1v g2v = .ok () →
      ∀ e, checkH E ep (prepareVerifyingKey E ep.params.vk) g1v
        (ep.taus_g1.length - 1) rng 0 = .err e →
      ExtendedParameters.verify E ep circuit rng = .err e) ∧
    (checkNonDeg E ep g1v g2v = .ok () → checkCross E ep g1v g2v = .ok () →
      checkH E ep (prepareVerifyingKey E ep.params.vk) g1v
        (ep.taus_g1.length - 1) rng 0 = .ok () →
      ∀ e, checkTau E ep (ep.taus_g1.length - 1) rng
        (ep.taus_g1.length - 1) = .err e →
      ExtendedParameters.verify E ep circuit rng = .err e) ∧
    (checkNonDeg E ep g1v g2v = .ok () → checkCross E ep g1v g2v = .ok () →
      checkH E ep (prepareVerifyingKey E ep.params.vk) g1v
        (ep.taus_g1.length - 1) rng 0 = .ok () →
      checkTau E ep (ep.taus_g1.length - 1) rng
        (ep.taus_g1.length - 1) = .ok () →
      ∀ (A : KeypairAssembly E) (qa : QapArrays E),
        synthAssembly E circuit = .ok A → qapEval E ep A = .ok qa →
      (∀ e, checkQap E ep (prepareVerifyingKey E ep.params.vk) g2v qa rng
        (3 * (ep.taus_g1.length - 1)) = .err e →
        ExtendedParameters.verify E ep circuit rng = .err e) ∧
      (checkQap E ep (prepareVerifyingKey E ep.params.vk) g2v qa rng
        (3 * (ep.taus_g1.length - 1)) = .ok () →
        ExtendedParameters.verify E ep circuit rng =
          checkStruct E ep qa)) := by
  intro E ep circuit rng g1v g2v hlen h1 h2
  refine ⟨?_, ?_, ?_, ?_, ?_⟩
  · intro e he
    rw [verify_chain E ep circuit rng hlen h1 h2, he]
    rfl
  · intro hnd e he
    rw [verify_chain E ep circuit rng hlen h1 h2, hnd, PR.bind_ok_left, he]
    rfl
  · intro hnd hcr e he
    rw [verify_chain E ep circuit rng hlen h1 h2, hnd, PR.bind_ok_left, hcr,
      PR.bind_ok_left, he]
    rfl
  · intro hnd hcr hH e he
    rw [verify_chain E ep circuit rng hlen h1 h2, hnd, PR.bind_ok_left, hcr,
      PR.bind_ok_left, hH, PR.bind_ok_left, he]
    rfl
  · intro hnd hcr hH hT A qa hA hqa
    constructor
    · intro e he
      rw [verify_chain E ep circuit rng hlen h1 h2, hnd, PR.bind_ok_left, hcr,
        PR.bind_ok_left, hH, PR.bind_ok_left, hT, PR.bind_ok_left, hA,
        PR.bind_ok_left, hqa, PR.bind_ok_left, he]
      rfl
    · intro hq
      rw [verify_chain E ep circuit rng hlen h1 h2, hnd, PR.bind_ok_left, hcr,
        PR.bind_ok_left, hH, PR.bind_ok_left, hT, PR.bind_ok_left, hA,
        PR.bind_ok_left, hqa, PR.bind_ok_left, hq, PR.bind_ok_left]

/-- C4 (witness): at the tampered-`h` toy CRS with the all-ones random
stream, non-degeneracy and cross-group pass, the H-query check fails, and
`verify` returns `MalformedCrs` without reaching the later checks. -/
theorem c4_amended_witness :
    toyEpTamperH.taus_g1.length = toyEpTamperH.taus_g2.length ∧
    checkNonDeg toyE toyEpTamperH (z5 1) (z5 1) = .ok () ∧
    checkCross toyE toyEpTamperH (z5 1) (z5 1) = .ok () ∧
    checkH toyE toyEpTamperH (prepareVerifyingKey toyE toyEpTamperH.params.vk)
      (z5 1) (toyEpTamperH.taus_g1.length - 1) rngOne 0 = .err .malformedCrs ∧
    ExtendedParameters.verify toyE toyEpTamperH [] rngOne =
      .err .malformedCrs :=
  ⟨by decide, by decide, by decide, by decide,
    (c4_amended toyE toyEpTamperH [] rngOne (z5 1) (z5 1) (by decide)
      (by decide) (by decide)).2.2.1 (by decide) (by decide) .malformedCrs
      (by decide)⟩

/-- C6: `verify` returns `MalformedCrs` whenever any of `taus_g1[0]`,
`taus_g2[0]`, `alpha_g1`, `beta_g1`, `gamma_g2`, `delta_g1` or `h[0]`
equals the group identity, and the non-degeneracy block succeeds exactly
when those seven are non-identity — in particular no identity check on
`beta_g2` or `delta_g2` occurs in it (they do not appear in the
characterization). -/
theorem c6_nondegeneracy : ∀ (E : Engine) (ep : ExtendedParameters E)
    (circuit : List (CircuitOp E)) (rng : Nat → E.Fr)
    (g1v : E.G1) (g2v : E.G2),
    ep.taus_g1.length = ep.taus_g2.length →
    ep.taus_g1[0]? = some g1v → ep.taus_g2[0]? = some g2v →
    ((E.g1Beq g1v E.g1Zero = true ∨ E.g2Beq g2v E.g2Zero = true ∨
      E.g1Beq ep.params.vk.alpha_g1 E.g1Zero = true ∨
      E.g1Beq ep.params.vk.beta_g1 E.g1Zero = true ∨
      E.g2Beq ep.params.vk.gamma_g2 E.g2Zero = true ∨
      E.g1Beq ep.params.vk.delta_g1 E.g1Zero = true ∨
      (∃ h0, ep.params.h[0]? = some h0 ∧ E.g1Beq h0 E.g1Zero = true)) →
      ExtendedParameters.verify E ep circuit rng = .err .malformedCrs) ∧
    (checkNonDeg E ep g1v g2v = .ok () ↔
      (E.g1Beq g1v E.g1Zero = false ∧ E.g2Beq g2v E.g2Zero = false ∧
       E.g1Beq ep.params.vk.alpha_g1 E.g1Zero = false ∧
       E.g1Beq ep.params.vk.beta_g1 E.g1Zero = false ∧
       E.g2Beq ep.params.vk.gamma_g2 E.g2Zero = false ∧
       E.g1Beq ep.params.vk.delta_g1 E.g1Zero = false ∧
       ∃ h0, ep.params.h[0]? = some h0 ∧ E.g1Beq h0 E.g1Zero = false)) := by
  intro E ep circuit rng g1v g2v hlen h1 h2
  constructor
  · intro disj
    rw [verify_chain E ep circuit rng hlen h1 h2,
      checkNonDeg_err_of E ep g1v g2v disj]
    rfl
  · exact checkNonDeg_ok_iff E ep g1v g2v

/-- C6 (witness): a toy CRS whose `alpha_g1` is the identity makes `verify`
return `MalformedCrs`. -/
theorem c6_nondegeneracy_witness :
    toyEpAlphaId.taus_g1.length = toyEpAlphaId.taus_g2.length ∧
    toyE.g1Beq toyEpAlphaId.params.vk.alpha_g1 toyE.g1Zero = true ∧
    ExtendedParameters.verify toyE toyEpAlphaId [] rngOne =
      .err .malformedCrs :=
  ⟨by decide, by decide,
    (c6_nondegeneracy toyE toyEpAlphaId [] rngOne (z5 1) (z5 1) (by decide)
      (by decide) (by decide)).1
      (Or.inr (Or.inr (Or.inl (by decide))))⟩

/-- C10 (counterexample): at a CRS whose `h` length differs from
`taus_g1.len() - 1` but whose `taus_g1[0]` is the identity, `verify`
returns `Err(MalformedCrs)` — it does NOT panic — refuting the claim that
an `h`-length mismatch panics rather than returning a `SynthesisError`. -/
theorem c10_counterexample :
    toyEpLenBad.params.h.length ≠ toyEpLenBad.taus_g1.length - 1 ∧
    ExtendedParameters.verify toyE toyEpLenBad [] rngOne =
      .err .malformedCrs := by
  exact ⟨by decide, by decide⟩

/-- C10 (amended): mismatched or empty powers-of-tau arrays make `verify`
panic unconditionally, before any check can return an error; the `h`-length
and `l`-length conditions are asserted only in mid-audit — a successful
run guarantees them, but when an earlier check fails first `verify`
returns `MalformedCrs` instead of panicking. -/
theorem c10_amended : ∀ (E : Engine) (ep : ExtendedParameters E)
    (circuit : List (CircuitOp E)) (rng : Nat → E.Fr),
    (ep.taus_g1.length ≠ ep.taus_g2.length →
      ExtendedParameters.verify E ep circuit rng = .panicked) ∧
    (ep.taus_g1.length = ep.taus_g2.length → ep.taus_g1 = [] →
      ExtendedParameters.verify E ep circuit rng = .panicked) ∧
    (ExtendedParameters.verify E ep circuit rng = .ok () →
      ep.params.h.length = ep.taus_g1.length - 1 ∧
      ∃ A, synthAssembly E circuit = .ok A ∧
        ep.params.l.length = A.num_aux) := by
  intro E ep circuit rng
  refine ⟨verify_panic_of_length_mismatch E ep circuit rng,
    verify_panic_of_empty E ep circuit rng, ?_⟩
  intro hok
  unfold ExtendedParameters.verify at hok
  simp only [PR.monad_bind_eq] at hok
  rw [PR.bind_eq_ok] at hok
  obtain ⟨u0, ha0, hok⟩ := hok
  cases u0
  rw [PR.bind_eq_ok] at hok
  obtain ⟨g1v, hg1, hok⟩ := hok
  rw [PR.bind_eq_ok] at hok
  obtain ⟨g2v, hg2, hok⟩ := hok
  rw [PR.bind_eq_ok] at hok
  obtain ⟨u1, hnd, hok⟩ := hok
  cases u1
  rw [PR.bind_eq_ok] at hok
  obtain ⟨u2, hcr, hok⟩ := hok
  cases u2
  rw [PR.bind_eq_ok] at hok
  obtain ⟨u3, hH, hok⟩ := hok
  cases u3
  rw [PR.bind_eq_ok] at hok
  obtain ⟨u4, hT, hok⟩ := hok
  cases u4
  rw [PR.bind_eq_ok] at hok
  obtain ⟨A, hA, hok⟩ := hok
  rw [PR.bind_eq_ok] at hok
  obtain ⟨qa, hqa, hok⟩ := hok
  rw [PR.bind_eq_ok] at hok
  obtain ⟨u5, hq, -⟩ := hok
  cases u5
  refine ⟨checkH_ok_hlen hH, A, hA, ?_⟩
  have h1 := checkQap_ok_llen hq
  have h2 := (qapEval_ok_counts hqa).2
  rw [h1, h2]

/-- C10 (witness): mismatched `taus_g1`/`taus_g2` lengths make `verify`
panic. -/
theorem c10_amended_witness :
    toyEpMismatch.taus_g1.length ≠ toyEpMismatch.taus_g2.length ∧
    ExtendedParameters.verify toyE toyEpMismatch [] rngOne = .panicked :=
  ⟨by decide, (c10_amended toyE toyEpMismatch [] rngOne).1 (by decide)⟩

/-- C5: the powers-of-tau block of `verify` draws fresh random scalars
`p_i` (positions `off..off+d`) and `q_i` (positions `off+d..off+2d`) for
`i ∈ 1..=d`, forms `pq_i = p_i + q_i`, computes the multi-exponentiations
`PQ = Σ pq_i·taus_g1[i]`, `P = Σ p_i·taus_g1[i-1]`, `Q = Σ q_i·taus_g2[i]`,
and succeeds exactly when the pairing product
`e(PQ, -taus_g2[0]) * e(P, taus_g2[1]) * e(taus_g1[0], Q)` equals one,
returning `MalformedCrs` otherwise. -/
theorem c5_powers_of_tau_check (E : Engine) (ep : ExtendedParameters E)
    (d : Nat) (rng : Nat → E.Fr) (off : Nat) (hP : PairingLaws E)
    (hl1 : ep.taus_g1.length = d + 1) (hl2 : ep.taus_g2.length = d + 1)
    (hd : 1 ≤ d) :
    checkTau E ep d rng off =
      if E.fqkBeq (tauCheckSpecProduct E ep d rng off) E.fqkOne then .ok ()
      else .err .malformedCrs :=
  checkTau_spec E ep d rng off hP hl1 hl2 hd

/-- C5 (witness): the powers-of-tau check of the honest toy CRS computes
exactly the spec's batched pairing product. -/
theorem c5_powers_of_tau_check_witness :
    PairingLaws toyE ∧ toyEpHonest.taus_g1.length = 1 + 1 ∧
    toyEpHonest.taus_g2.length = 1 + 1 ∧ 1 ≤ 1 ∧
    checkTau toyE toyEpHonest 1 rngOne 1 =
      (if toyE.fqkBeq (tauCheckSpecProduct toyE toyEpHonest 1 rngOne 1)
          toyE.fqkOne then .ok () else .err .malformedCrs) :=
  ⟨by decide, by decide, by decide, by decide,
    c5_powers_of_tau_check toyE toyEpHonest 1 rngOne 1 (by decide) (by decide)
      (by decide) (by decide)⟩

/-- C8: `alloc` and `alloc_input` never invoke the supplied value-producing
closure (their result is the same for any two closures) and return a handle
tagged `auxiliary`/`input` with the next free index of that kind; `enforce`
distributes each (coefficient, wire) term of its three linear combinations
into the matching per-wire sparse list tagged with the current constraint
index and increments the constraint counter by exactly one; `push_namespace`
and `pop_namespace` leave the assembly unchanged. -/
theorem c8_constraint_system_ops : ∀ (E : Engine) (A : KeypairAssembly E)
    (f g : Unit → Except SynthesisError E.Fr)
    (la lb lc : LinearCombination E),
    (∀ t ∈ la, idxOk A.at_inputs.length A.at_aux.length t.1) →
    (∀ t ∈ lb, idxOk A.bt_inputs.length A.bt_aux.length t.1) →
    (∀ t ∈ lc, idxOk A.ct_inputs.length A.ct_aux.length t.1) →
    (KeypairAssembly.alloc E A f = KeypairAssembly.alloc E A g ∧
      ∃ A2, KeypairAssembly.alloc E A f =
          .ok (Index.auxiliary A.num_aux, A2) ∧
        A2.num_aux = A.num_aux + 1 ∧ A2.num_inputs = A.num_inputs ∧
        A2.num_constraints = A.num_constraints) ∧
    (KeypairAssembly.alloc_input E A f = KeypairAssembly.alloc_input E A g ∧
      ∃ A2, KeypairAssembly.alloc_input E A f =
          .ok (Index.input A.num_inputs, A2) ∧
        A2.num_inputs = A.num_inputs + 1 ∧ A2.num_aux = A.num_aux ∧
        A2.num_constraints = A.num_constraints) ∧
    (∃ A2, KeypairAssembly.enforce E A la lb lc = some A2 ∧
      A2.num_constraints = A.num_constraints + 1 ∧
      A2.num_inputs = A.num_inputs ∧ A2.num_aux = A.num_aux ∧
      (∀ i : Nat, A2.at_inputs.getD i [] =
        A.at_inputs.getD i [] ++ lcInputEntries E la i A.num_constraints) ∧
      (∀ i : Nat, A2.at_aux.getD i [] =
        A.at_aux.getD i [] ++ lcAuxEntries E la i A.num_constraints) ∧
      (∀ i : Nat, A2.bt_inputs.getD i [] =
        A.bt_inputs.getD i [] ++ lcInputEntries E lb i A.num_constraints) ∧
      (∀ i : Nat, A2.bt_aux.getD i [] =
        A.bt_aux.getD i [] ++ lcAuxEntries E lb i A.num_constraints) ∧
      (∀ i : Nat, A2.ct_inputs.getD i [] =
        A.ct_inputs.getD i [] ++ lcInputEntries E lc i A.num_constraints) ∧
      (∀ i : Nat, A2.ct_aux.getD i [] =
        A.ct_aux.getD i [] ++ lcAuxEntries E lc i A.num_constraints)) ∧
    KeypairAssembly.push_namespace E A = A ∧
    KeypairAssembly.pop_namespace E A = A := by
  intro E A f g la lb lc ha hb hc
  obtain ⟨A2, he, h1, h2, h3, -, -, -, -, -, -, g1, g2, g3, g4, g5, g6⟩ :=
    KeypairAssembly.enforce_spec E A la lb lc ha hb hc
  exact ⟨⟨rfl, _, rfl, rfl, rfl, rfl⟩, ⟨rfl, _, rfl, rfl, rfl, rfl⟩,
    ⟨A2, he, h3, h1, h2, g1, g2, g3, g4, g5, g6⟩, rfl, rfl⟩

/-- C8 (witness): at a concrete two-wire assembly, `alloc` gives the same
answer for a succeeding and a failing closure, `enforce` of
`input_0 * (2 aux_0) = 0` succeeds and bumps the constraint counter by one,
and the namespace operations are the identity. -/
theorem c8_constraint_system_ops_witness :
    KeypairAssembly.alloc toyE c8A c8f = KeypairAssembly.alloc toyE c8A c8g ∧
    KeypairAssembly.push_namespace toyE c8A = c8A ∧
    ∃ A2, KeypairAssembly.enforce toyE c8A c8la c8lb c8lc = some A2 ∧
      A2.num_constraints = c8A.num_constraints + 1 := by
  obtain ⟨⟨hEq, -⟩, -, ⟨A2, hA2, hcnt, -⟩, hpush, -⟩ :=
    c8_constraint_system_ops toyE c8A c8f c8g c8la c8lb c8lc (by decide)
      (by decide) (by decide)
  exact ⟨hEq, hpush, A2, hA2, hcnt⟩

/-- C9: `verify` synthesizes the circuit against an assembly holding the
freshly allocated constant-one input (wire 0), then the input-constraint
loop appends exactly one constraint per public-input wire, of the form
`input_i * 0 = 0`: wire `i`-s A-matrix row gains the entry
`(one, num_constraints + i)` — nonzero whenever `one ≠ zero` — the B and C
matrices and the aux rows are untouched, and the constraint count grows by
exactly the number of public inputs. -/
theorem c9_input_constraints : ∀ (E : Engine) (circuit : List (CircuitOp E))
    (A : KeypairAssembly E), A.at_inputs.length = A.num_inputs →
    (synthAssembly E circuit =
      PR.bind (runOps E circuit ⟨1, 0, 0, [[]], [[]], [[]], [], [], []⟩)
        (fun A1 => match inputConstraints E A1 with
          | some A2 => PR.ok A2
          | none => PR.panicked)) ∧
    ∃ A2, inputConstraints E A = some A2 ∧
      A2.num_constraints = A.num_constraints + A.num_inputs ∧
      A2.num_inputs = A.num_inputs ∧ A2.num_aux = A.num_aux ∧
      (∀ i : Nat, i < A.num_inputs → A2.at_inputs.getD i [] =
        A.at_inputs.getD i [] ++ [(E.frOne, A.num_constraints + i)]) ∧
      (E.frOne ≠ E.frZero → ∀ i : Nat, i < A.num_inputs →
        ∃ e ∈ A2.at_inputs.getD i [],
          e.1 ≠ E.frZero ∧ e.2 = A.num_constraints + i) ∧
      A2.bt_inputs = A.bt_inputs ∧ A2.ct_inputs = A.ct_inputs ∧
      A2.at_aux = A.at_aux ∧ A2.bt_aux = A.bt_aux ∧ A2.ct_aux = A.ct_aux := by
  intro E circuit A hlen
  refine ⟨rfl, ?_⟩
  obtain ⟨A2, hgo, e1, e2, e3, e4, e5, e6, e7, e8, e9, e10, e11⟩ :=
    inputConstraintsGo_range_spec E A hlen A.num_inputs (le_refl _)
  refine ⟨A2, hgo, e3, e1, e2, e5, ?_, e7, e8, e9, e10, e11⟩
  intro hone i hi
  refine ⟨(E.frOne, A.num_constraints + i), ?_, hone, rfl⟩
  rw [e5 i hi]
  simp

/-- C9 (witness): at a concrete assembly with two public-input wires and
three prior constraints, the loop succeeds and raises the constraint count
to five. -/
theorem c9_input_constraints_witness :
    c9A.at_inputs.length = c9A.num_inputs ∧
    ∃ A2, inputConstraints toyE c9A = some A2 ∧
      A2.num_constraints = c9A.num_constraints + c9A.num_inputs := by
  obtain ⟨-, A2, h1, h2, -⟩ :=
    c9_input_constraints toyE [] c9A (by decide)
  exact ⟨by decide, A2, h1, h2⟩

end Groth16
